import Mathlib

/-!
Verification development for the `earthfile2llb` converter
(`earthfile2llb/converter.go`): a shallow embedding of the converter's
data model and command operations, with theorems checking the
natural-language specification against the code.

Modelling conventions:
* The buildkit LLB state (`llb.State`) is an opaque external primitive for
  the converter; it is embedded as a free term algebra (`LLBState`), so each
  converter operation's effect on a state is recorded syntactically.
* Go's in-place mutation of the converter through a pointer receiver is
  embedded as explicit state passing; a fallible operation returns
  `Except (String × Converter) (α × Converter)`, where an error carries the
  converter state at the point of failure (Go does not roll back mutations
  performed before an early error return).
* Machine words in SHA-256 are `Nat` with explicit reduction `% 2^32`.
* External collaborators (registry resolver, recursive `Earthfile2LLB`
  entry, artifact solver) are supplied as explicit parameters carrying the
  value they returned; code of the repository that is outside
  `converter.go` (the `domain`, `variables`, `dedup` packages, `states.go`,
  `mounts.go`, `shell.go`) is modelled from the spec, as marked on each
  such definition.
-/

namespace Earthly

/-! ## Build-graph states (free algebra over the `llb` primitives used) -/

mutual

/-- A buildkit LLB state, embedded as the free term algebra over exactly the
state-building primitives `converter.go` uses. -/
inductive LLBState where
  | scratch (platform : String)
  | imageRef (ref : String)
  | localCtx (name : String) (sharedKey : String) (sessionID : String) (label : String)
  | gitSt (url : String) (branch : String) (keepGitDir : Bool) (label : String)
  | runSt (base : LLBState) (opts : List RunOpt)
  | copySt (srcState : LLBState) (srcs : List String) (dest : LLBState) (destPath : String)
      (allowWildcard : Bool) (isDir : Bool) (chown : String) (label : String)
  | fileMkdir (base : LLBState) (dir : String) (mode : Nat) (withParents : Bool)
      (mkUser : Option String) (label : String)
  | fileRm (base : LLBState) (p : String) (allowNotFound : Bool) (label : String)
  | addEnv (base : LLBState) (key : String) (value : String)
  | dirSt (base : LLBState) (d : String)
  | userSt (base : LLBState) (u : String)
  | withDep (base : LLBState) (dep : LLBState) (label : String)
  | runMount (base : LLBState) (opts : List RunOpt) (mountTarget : String)
      (mountSource : LLBState) (sourcePath : String)

/-- A run option (`llb.RunOption`), as used by `internalRun`. -/
inductive RunOpt where
  | customName (s : String)
  | ignoreCache
  | securityInsecure
  | secretOpt (target : String) (secretID : String)
  | mountOpt (target : String) (source : LLBState) (sourcePath : String) (hostBind : Bool)
  | sshSocket
  | argsOpt (argv : List String)
  | rawMount (m : String)
  | dirOpt (d : String)
  | mountState (target : String) (source : LLBState) (readonly : Bool)

end

/-! ## SHA-256 over byte lists (Go `crypto/sha256`), words as `Nat % 2^32` -/

def pow32 : Nat := 4294967296

def rotr32 (n x : Nat) : Nat := ((x >>> n) ||| (x <<< (32 - n))) % pow32

def add32 (a b : Nat) : Nat := (a + b) % pow32

def sha256K : List Nat :=
  [1116352408, 1899447441, 3049323471, 3921009573, 961987163, 1508970993,
   2453635748, 2870763221, 3624381080, 310598401, 607225278, 1426881987,
   1925078388, 2162078206, 2614888103, 3248222580, 3835390401, 4022224774,
   264347078, 604807628, 770255983, 1249150122, 1555081692, 1996064986,
   2554220882, 2821834349, 2952996808, 3210313671, 3336571891, 3584528711,
   113926993, 338241895, 666307205, 773529912, 1294757372, 1396182291,
   1695183700, 1986661051, 2177026350, 2456956037, 2730485921, 2820302411,
   3259730800, 3345764771, 3516065817, 3600352804, 4094571909, 275423344,
   430227734, 506948616, 659060556, 883997877, 958139571, 1322822218,
   1537002063, 1747873779, 1955562222, 2024104815, 2227730452, 2361852424,
   2428436474, 2756734187, 3204031479, 3329325298]

def sha256H0 : List Nat :=
  [1779033703, 3144134277, 1013904242, 2773480762,
   1359893119, 2600822924, 528734635, 1541459225]

/-- Pad a byte message per SHA-256: append 0x80, zeros, and the 64-bit
big-endian bit length, to a multiple of 64 bytes. -/
def sha256pad (msg : List Nat) : List Nat :=
  let len := msg.length
  let padZeros := (55 + 64 - len % 64) % 64
  msg ++ [0x80] ++ List.replicate padZeros 0 ++
    (List.range 8).map (fun i => (len * 8) >>> ((7 - i) * 8) % 256 % 256)

/-- Split a byte list into 64-byte chunks (fuel-based so that the kernel can
evaluate it; the fuel `l.length + 1` always suffices). -/
def toChunksGo : Nat → List Nat → List (List Nat)
  | 0, _ => []
  | _, [] => []
  | fuel + 1, x :: rest => (x :: rest).take 64 :: toChunksGo fuel ((x :: rest).drop 64)

/-- Split a byte list into 64-byte chunks. -/
def toChunks (l : List Nat) : List (List Nat) :=
  toChunksGo (l.length + 1) l

/-- The 16 initial 32-bit big-endian words of a 64-byte chunk. -/
def chunkWords (chunk : List Nat) : List Nat :=
  (List.range 16).map (fun i =>
    chunk.getD (4 * i) 0 * 16777216 + chunk.getD (4 * i + 1) 0 * 65536 +
    chunk.getD (4 * i + 2) 0 * 256 + chunk.getD (4 * i + 3) 0)

/-- Extend the 16-word schedule to 64 words. -/
def sha256schedule (w16 : List Nat) : List Nat :=
  (List.range 48).foldl
    (fun w _ =>
      let i := w.length
      let x := w.getD (i - 15) 0
      let y := w.getD (i - 2) 0
      let s0 := rotr32 7 x ^^^ rotr32 18 x ^^^ (x >>> 3)
      let s1 := rotr32 17 y ^^^ rotr32 19 y ^^^ (y >>> 10)
      w ++ [add32 (add32 (w.getD (i - 16) 0) s0) (add32 (w.getD (i - 7) 0) s1)])
    w16

/-- One SHA-256 compression round. -/
def sha256round (w : List Nat) (st : List Nat) (i : Nat) : List Nat :=
  let a := st.getD 0 0
  let b := st.getD 1 0
  let c := st.getD 2 0
  let d := st.getD 3 0
  let e := st.getD 4 0
  let f := st.getD 5 0
  let g := st.getD 6 0
  let hh := st.getD 7 0
  let s1 := rotr32 6 e ^^^ rotr32 11 e ^^^ rotr32 25 e
  let ch := (e &&& f) ^^^ ((e ^^^ 4294967295) &&& g)
  let temp1 := add32 (add32 (add32 hh s1) (add32 ch (sha256K.getD i 0))) (w.getD i 0)
  let s0 := rotr32 2 a ^^^ rotr32 13 a ^^^ rotr32 22 a
  let maj := (a &&& b) ^^^ (a &&& c) ^^^ (b &&& c)
  let temp2 := add32 s0 maj
  [add32 temp1 temp2, a, b, c, add32 d temp1, e, f, g]

/-- Process one 64-byte chunk. -/
def sha256compress (h : List Nat) (chunk : List Nat) : List Nat :=
  let w := sha256schedule (chunkWords chunk)
  let st := (List.range 64).foldl (sha256round w) h
  List.zipWith add32 h st

/-- Big-endian bytes of a 32-bit word. -/
def wordBytes (x : Nat) : List Nat :=
  [x >>> 24 % 256, x >>> 16 % 256, x >>> 8 % 256, x % 256]

/-- SHA-256 digest (32 bytes) of a byte message. -/
def sha256 (msg : List Nat) : List Nat :=
  (((toChunks (sha256pad msg)).foldl sha256compress sha256H0).map wordBytes).flatten

def hexDigit (n : Nat) : Char :=
  "0123456789abcdef".toList.getD n '0'

/-- Go `hex.EncodeToString` over a byte list. -/
def hexEncode (bytes : List Nat) : String :=
  String.mk ((bytes.map (fun b => [hexDigit (b / 16), hexDigit (b % 16)])).flatten)

/-- UTF-8 encoding of one character, as `Nat` bytes. -/
def charUTF8 (c : Char) : List Nat :=
  let n := c.toNat
  if n < 128 then [n]
  else if n < 2048 then [192 + n / 64, 128 + n % 64]
  else if n < 65536 then [224 + n / 4096, 128 + (n / 64) % 64, 128 + n % 64]
  else [240 + n / 262144, 128 + (n / 4096) % 64, 128 + (n / 64) % 64, 128 + n % 64]

/-- UTF-8 bytes of a string, as `Nat`s (Go `[]byte(s)`). -/
def strBytes (s : String) : List Nat :=
  (s.data.map charUTF8).flatten

set_option maxRecDepth 100000

/-- SHA-256 test vector, checking the embedding of Go `crypto/sha256`. -/
theorem sha256_abc :
    hexEncode (sha256 (strBytes "abc")) =
      "ba7816bf8f01cfea414140de5dae2223b00361a396177a9cb410ff61f20015ad" := by
  decide

/-! ## Structural string helpers

Go's `strings` functions are embedded with structural recursion so that the
kernel can evaluate them (every separator the converter uses is a single
character). -/

/-- Structural split of a character list at a separator character. -/
def splitOnCharList (sep : Char) : List Char → List (List Char)
  | [] => [[]]
  | x :: rest =>
      let r := splitOnCharList sep rest
      if x == sep then [] :: r
      else
        match r with
        | [] => [[x]]
        | h :: t => (x :: h) :: t

/-- Go `strings.Split` for a single-character separator. -/
def strSplitOn (s : String) (sep : Char) : List String :=
  (splitOnCharList sep s.data).map String.mk

/-- Go `strings.Contains` for a single-character needle. -/
def strContainsChar (s : String) (c : Char) : Bool :=
  s.data.contains c

/-- Drop the first `n` characters of a string. -/
def strDrop (s : String) (n : Nat) : String :=
  String.mk (s.data.drop n)

/-- Go `strings.HasPrefix`. -/
def strStartsWith (s pfx : String) : Bool :=
  pfx.data.isPrefixOf s.data

/-! ## Domain references

Modelled from the spec: the `domain` package is a collaborator outside the
core source; the spec describes a target reference as `(projectPath, name,
tag)` with a canonical string form, plus a LocalPath for local targets. -/

/-- Modelled from the spec: `domain.Target` — `(projectPath, name, tag)` plus
the local path for local targets. -/
structure Target where
  projectPath : String
  name : String
  tag : String
  localPath : String
  deriving DecidableEq

/-- Modelled from the spec: `Target.StringCanonical` — a stable canonical
string form of the reference. -/
def Target.stringCanonical (t : Target) : String :=
  t.projectPath ++ (if t.tag == "" then "" else ":" ++ t.tag) ++ "+" ++ t.name

/-- Modelled from the spec: `Target.String` — display form of the reference. -/
def Target.toString (t : Target) : String :=
  t.stringCanonical

/-- Modelled from the spec: `Target.ProjectCanonical` — canonical project
identity (the project part of the reference). -/
def Target.projectCanonical (t : Target) : String :=
  t.projectPath

/-- Modelled from the spec: `IsExternal` is true iff the target names a
project different from the caller's own (a bare `+name` reference leaves the
project empty and stays internal). -/
def Target.isExternal (t : Target) : Bool :=
  t.projectPath != ""

/-- Modelled from the spec: `IsLocalInternal` is true iff the target uses the
implicit same-local-directory marker. -/
def Target.isLocalInternal (t : Target) : Bool :=
  t.projectPath == "" && t.localPath == ""

/-- Modelled from the spec: `domain.ParseTarget` accepts `proj+name` and
`+name` forms; malformed references fail. -/
def parseTarget (s : String) : Except String Target :=
  match strSplitOn s '+' with
  | [proj, nm] =>
      if nm == "" then .error ("parse target name " ++ s)
      else .ok { projectPath := proj, name := nm, tag := "", localPath := "" }
  | _ => .error ("parse target name " ++ s)

/-- Modelled from the spec: `domain.JoinTargets` — a bare `+name` inherits
the current project (and local path); an explicit project stands alone. -/
def joinTargets (base rel : Target) : Target :=
  if rel.projectPath == "" then
    { rel with projectPath := base.projectPath, localPath := base.localPath }
  else rel

/-- Modelled from the spec: an artifact reference `(target, path)`. -/
structure Artifact where
  target : Target
  artifact : String
  deriving DecidableEq

/-- Modelled from the spec: `domain.ParseArtifact` — `target/path` form. -/
def parseArtifact (s : String) : Except String Artifact :=
  match strSplitOn s '/' with
  | [] => .error ("parse artifact name " ++ s)
  | tgt :: rest =>
      if rest.isEmpty then .error ("parse artifact name " ++ s)
      else
        match parseTarget tgt with
        | .error e => .error e
        | .ok t => .ok { target := t, artifact := String.intercalate "/" rest }

/-- Modelled from the spec: `Artifact.String`. -/
def Artifact.toString (a : Artifact) : String :=
  a.target.toString ++ "/" ++ a.artifact

/-! ## Cache key (`cacheKey`, `makeCacheContext`) -/

/-- The target platform constant (`llbutil.TargetPlatform`), opaque here. -/
def targetPlatform : String := "linux/amd64"

/-- `cacheKey` from the source: SHA-256 hex digest of the canonical target
string with the tag stripped. -/
def cacheKey (target : Target) : String :=
  let targetCopy := { target with tag := "" }
  hexEncode (sha256 (strBytes targetCopy.stringCanonical))

/-- `makeCacheContext` from the source: a local context named
`earthly-cache`, shared-key hint = project canonical, session id =
`cacheKey target`. -/
def makeCacheContext (target : Target) : LLBState :=
  LLBState.localCtx "earthly-cache" target.projectCanonical (cacheKey target)
    ("[internal] cache context " ++ target.projectCanonical)

/-- C5: for every pair of targets that differ only in their tag, `cacheKey`
yields the same value; `cacheKey target` is the hex-encoded SHA-256 of the
target's canonical string with the tag stripped. -/
theorem cacheKey_ignores_tag (t : Target) (tag1 tag2 : String) :
    cacheKey { t with tag := tag1 } = cacheKey { t with tag := tag2 } ∧
    cacheKey t =
      hexEncode (sha256 (strBytes (Target.stringCanonical { t with tag := "" }))) := by
  exact ⟨rfl, rfl⟩

/-! ## Image metadata (`earthfile2llb/image`)

Modelled from the spec: the image package is outside the core source; the
spec gives the mutable image-config record and its operations. -/

/-- Modelled from the spec: docker health-check configuration. -/
structure HealthConfig where
  test : List String
  interval : Int
  timeoutDur : Int
  startPeriod : Int
  retries : Int
  deriving DecidableEq

/-- Modelled from the spec: the mutable image configuration record. -/
structure ImageConfig where
  entrypoint : List String
  cmd : List String
  env : List String
  workingDir : String
  userName : String
  labels : List (String × String)
  exposedPorts : List String
  volumes : List String
  healthcheck : Option HealthConfig
  deriving DecidableEq

/-- Modelled from the spec: image metadata holding a config. -/
structure Image where
  config : ImageConfig
  deriving DecidableEq

/-- Modelled from the spec: `image.NewImage` initializes empty fields. -/
def Image.newImage : Image :=
  { config := { entrypoint := [], cmd := [], env := [], workingDir := "",
                userName := "", labels := [], exposedPorts := [], volumes := [],
                healthcheck := none } }

/-- Modelled from the spec: `Image.Clone` is a deep copy; in this
aliasing-free embedding a deep copy is the value itself. -/
def Image.clone (img : Image) : Image :=
  img

/-! ## Assoc-list helpers (Go maps are embedded as assoc lists) -/

/-- Set a key in an assoc list, replacing an existing entry (Go `m[k] = v`). -/
def setAssoc (m : List (String × String)) (k v : String) : List (String × String) :=
  match m with
  | [] => [(k, v)]
  | (k', v') :: rest => if k' == k then (k, v) :: rest else (k', v') :: setAssoc rest k v

/-- Look a key up in an assoc list. -/
def lookupAssoc (m : List (String × String)) (k : String) : Option String :=
  match m with
  | [] => none
  | (k', v') :: rest => if k' == k then some v' else lookupAssoc rest k

/-- Fold all entries of `add` into `base` (Go `for k, v := range add { base[k] = v }`). -/
def unionAssoc (base add : List (String × String)) : List (String × String) :=
  add.foldl (fun m kv => setAssoc m kv.1 kv.2) base

/-- Insert into a Go set-map (`map[string]struct{}`). -/
def setInsert (l : List String) (x : String) : List String :=
  if l.contains x then l else l ++ [x]

/-! ## Variables and dedup input (`variables`, `dedup` packages)

Modelled from the spec: both packages are outside the core source. A
binding is constant, constant-env, or non-constant (a build-state that will
contain the value, plus a stable argument index); a collection has an
active tier and an overriding tier. -/

/-- Modelled from the spec: one variable binding. -/
inductive Variable where
  | constant (value : String)
  | constantEnv (value : String)
  | nonConstant (state : LLBState) (argIndex : Nat)

/-- Modelled from the spec: `IsEnvVar`. -/
def Variable.isEnvVar : Variable → Bool
  | .constantEnv _ => true
  | _ => false

/-- Modelled from the spec: `IsConstant`. -/
def Variable.isConstant : Variable → Bool
  | .nonConstant _ _ => false
  | _ => true

/-- Modelled from the spec: `ConstantValue`. -/
def Variable.constantValue : Variable → String
  | .constant v => v
  | .constantEnv v => v
  | .nonConstant _ _ => ""

/-- Modelled from the spec: `VariableState` of a non-constant binding. -/
def Variable.variableState : Variable → LLBState
  | .nonConstant st _ => st
  | _ => LLBState.scratch targetPlatform

/-- Modelled from the spec: `dedup.BuildArgInput` — the dedup record of one
arg binding: its name and either its constant value or its argument index. -/
inductive BuildArgInput where
  | constantArg (name : String) (value : String) (defaultValue : String)
  | nonConstantArg (name : String) (argIndex : Nat) (defaultValue : String)

/-- Modelled from the spec: name of a `BuildArgInput`. -/
def BuildArgInput.name : BuildArgInput → String
  | .constantArg n _ _ => n
  | .nonConstantArg n _ _ => n

/-- Modelled from the spec: `Variable.BuildArgInput(name, default)`. -/
def Variable.buildArgInput (v : Variable) (nm defaultValue : String) : BuildArgInput :=
  match v with
  | .constant value => .constantArg nm value defaultValue
  | .constantEnv value => .constantArg nm value defaultValue
  | .nonConstant _ idx => .nonConstantArg nm idx defaultValue

/-- Modelled from the spec: `dedup.TargetInput` — canonical target string
plus the arg bindings that affect output. -/
structure TargetInput where
  targetCanonical : String
  buildArgs : List BuildArgInput

/-- Modelled from the spec: `TargetInput.WithBuildArgInput` extends the
dedup input with one more binding. -/
def TargetInput.withBuildArgInput (ti : TargetInput) (bai : BuildArgInput) : TargetInput :=
  { ti with buildArgs := ti.buildArgs ++ [bai] }

/-- Insert a string into a lexicographically sorted list. -/
def insertSorted (k : String) : List String → List String
  | [] => [k]
  | x :: rest => if k ≤ x then k :: x :: rest else x :: insertSorted k rest

/-- Lexicographic insertion sort of strings. -/
def sortStrings (l : List String) : List String :=
  l.foldr insertSorted []

/-- Modelled from the spec: `variables.Collection` — an active tier (visible
to expansion) and an overriding tier (set by the caller for this target);
both are insertion-ordered assoc lists with unique names. -/
structure Collection where
  active : List (String × Variable)
  overriding : List (String × Variable)

/-- Modelled from the spec: `variables.NewCollection` — the empty collection. -/
def Collection.newCollection : Collection :=
  { active := [], overriding := [] }

/-- Set a name in a variable assoc list, replacing an existing entry. -/
def setVarAssoc (m : List (String × Variable)) (k : String) (v : Variable) :
    List (String × Variable) :=
  match m with
  | [] => [(k, v)]
  | (k', v') :: rest => if k' == k then (k, v) :: rest else (k', v') :: setVarAssoc rest k v

/-- Look a name up in a variable assoc list. -/
def lookupVarAssoc (m : List (String × Variable)) (k : String) : Option Variable :=
  match m with
  | [] => none
  | (k', v') :: rest => if k' == k then some v' else lookupVarAssoc rest k

/-- Modelled from the spec: `Collection.Get` — overriding values shadow
active ones. -/
def Collection.get (c : Collection) (k : String) : Option Variable :=
  match lookupVarAssoc c.overriding k with
  | some v => some v
  | none => lookupVarAssoc c.active k

/-- Modelled from the spec: `SortedOverridingVariables` — the overriding
names, lexicographically sorted. -/
def Collection.sortedOverridingVariables (c : Collection) : List String :=
  sortStrings (c.overriding.map Prod.fst)

/-- Modelled from the spec: `SortedActiveVariables` — all visible names
(active and overriding), lexicographically sorted, without duplicates. -/
def Collection.sortedActiveVariables (c : Collection) : List String :=
  sortStrings ((c.active.map Prod.fst ++ c.overriding.map Prod.fst).eraseDups)

/-- Modelled from the spec: `AddActive(name, v, overrideOK)` — returns the
effective binding; when `overrideOK` is false and the name is already
overriding, the overriding binding stays effective and the active tier is
left alone. -/
def Collection.addActive (c : Collection) (k : String) (v : Variable) (overrideOK : Bool) :
    Variable × Collection :=
  match lookupVarAssoc c.overriding k, overrideOK with
  | some ov, false => (ov, c)
  | _, _ => (v, { c with active := setVarAssoc c.active k v })

/-- Modelled from the spec: `WithResetEnvVars` drops env bindings from the
active tier but preserves non-env active bindings. -/
def Collection.withResetEnvVars (c : Collection) : Collection :=
  { c with active := c.active.filter (fun kv => !kv.2.isEnvVar) }

/-- Modelled from the spec: `WithBuiltinBuildArgs` seeds OS/arch/target
name/git metadata as constants in the active tier (not overriding). -/
def Collection.withBuiltinBuildArgs (c : Collection) (target : Target) : Collection :=
  let a1 := setVarAssoc c.active "EARTHLY_TARGET" (Variable.constant target.stringCanonical)
  let a2 := setVarAssoc a1 "EARTHLY_TARGET_NAME" (Variable.constant target.name)
  let a3 := setVarAssoc a2 "EARTHLY_TARGET_TAG" (Variable.constant target.tag)
  { c with active := a3 }

/-- Modelled from the spec: `variables.ParseKeyValue` splits `K=V` at the
first `=` (Go `strings.SplitN(kv, "=", 2)`). -/
def parseKeyValue (kv : String) : String × String :=
  match strSplitOn kv '=' with
  | [] => ("", "")
  | k :: rest => (k, String.intercalate "=" rest)

/-! ## Per-target and multi-target state (`states.go`)

Modelled from the spec: `states.go` is outside the core source; the spec
gives the full STS record, the deferred outputs and the MTS registry. -/

/-- Modelled from the spec: a `SaveLocal` deferred local-export entry; its
index selects the element of `SeparateArtifactsState`. -/
structure SaveLocal where
  destPath : String
  artifactPath : String
  index : Nat

/-- Modelled from the spec: a `SaveImage` deferred image-export entry. -/
structure SaveImageEntry where
  state : LLBState
  image : Image
  dockerTag : String
  push : Bool

/-- Modelled from the spec: the deferred push-flagged RUN accumulator. -/
structure RunPush where
  initialized : Bool
  state : LLBState
  commandStrs : List String

/-- Modelled from the spec: `SingleTargetStates` — the per-target record the
converter mutates. -/
structure SingleTargetStates where
  target : Target
  targetInput : TargetInput
  sideEffectsState : LLBState
  sideEffectsImage : Image
  artifactsState : LLBState
  separateArtifactsState : List LLBState
  saveLocals : List SaveLocal
  saveImages : List SaveImageEntry
  runPush : RunPush
  localDirs : List (String × String)
  ongoing : Bool
  salt : String

/-- Modelled from the spec: `LastSaveImage` — the most recent `SaveImages`
entry, if any (`FromTarget` requires one). -/
def SingleTargetStates.lastSaveImage (sts : SingleTargetStates) : Option SaveImageEntry :=
  sts.saveImages.getLast?

/-- Modelled from the spec: `MultiTargetStates`; the shared `VisitedStates`
memoization map lives in the top-level entry outside the core source and is
not represented here. -/
structure MultiTargetStates where
  finalStates : SingleTargetStates

/-- The converter record from the source (`Converter`); collaborator
callbacks (resolver, builder functions, cleanup collection, solve cache) are
external and not represented. -/
structure Converter where
  mtsFinal : SingleTargetStates
  directDeps : List SingleTargetStates
  buildContext : LLBState
  cacheContext : LLBState
  varCollection : Collection
  nextArgIndex : Nat

/-- `ConvertOpt` fields the embedding needs. -/
structure ConvertOpt where
  varCollection : Collection

/-- `NewConverter` from the source: build the initial STS (scratch states,
`Ongoing = true`, fresh salt), seed `TargetInput` with the canonical target
string and one `BuildArgInput` per sorted overriding variable of the given
collection, then build the converter with builtin build args added and the
cache context computed. `bc` data (build context state, local dirs) and the
random salt are passed in by the caller. -/
def NewConverter (target : Target) (bcLocalDirs : List (String × String))
    (bcBuildContext : LLBState) (salt : String) (opt : ConvertOpt) : Converter :=
  let sts0 : SingleTargetStates :=
    { target := target
      targetInput := { targetCanonical := target.stringCanonical, buildArgs := [] }
      sideEffectsState := LLBState.scratch targetPlatform
      sideEffectsImage := Image.newImage
      artifactsState := LLBState.scratch targetPlatform
      separateArtifactsState := []
      saveLocals := []
      saveImages := []
      runPush := { initialized := false, state := LLBState.scratch targetPlatform,
                   commandStrs := [] }
      localDirs := bcLocalDirs
      ongoing := true
      salt := salt }
  let ti := (opt.varCollection.sortedOverridingVariables).foldl
    (fun ti key =>
      match opt.varCollection.get key with
      | some ovVar => ti.withBuildArgInput (ovVar.buildArgInput key "")
      | none => ti)
    sts0.targetInput
  { mtsFinal := { sts0 with targetInput := ti }
    directDeps := []
    buildContext := bcBuildContext
    cacheContext := makeCacheContext target
    varCollection := opt.varCollection.withBuiltinBuildArgs target
    nextArgIndex := 0 }

/-- The vertex prefix used in labels (source `vertexPfx`; named
`vertexPrefix` in the source, renamed here for the lexical rules). -/
def Converter.vertexPfx (c : Converter) : String :=
  "[" ++ c.mtsFinal.target.toString ++ " " ++ c.mtsFinal.salt ++ "] "

/-- Go `strIf` from the source. -/
def strIf (condition : Bool) (str : String) : String :=
  if condition then str else ""

/-- Go `joinWrap` from the source. -/
def joinWrap (a : List String) (before sep after : String) : String :=
  if a.length > 0 then before ++ String.intercalate sep a ++ after else ""

/-! ## RUN (`Run`, `internalRun`) -/

/-- The secrets loop of `internalRun` (source lines 684-704): each
`ENV=+secrets/ID` yields a secret option at `/run/secrets/ID` and an
`ENV="$(cat /run/secrets/ID)"` env-var prelude entry; malformed definitions
fail. -/
def processSecrets (secretKeyValues : List String) :
    Except String (List RunOpt × List String) :=
  secretKeyValues.foldlM
    (fun acc secretKeyValue =>
      match strSplitOn secretKeyValue '=' with
      | [] => .error ("Invalid secret definition " ++ secretKeyValue)
      | [_] => .error ("Invalid secret definition " ++ secretKeyValue)
      | part0 :: partRest =>
          let part1 := String.intercalate "=" partRest
          if !strStartsWith part1 "+secrets/" then
            .error ("Secret definition " ++ secretKeyValue ++
              " not supported. Must start with +secrets/")
          else
            let secretID := strDrop part1 "+secrets/".length
            let secretPath := "/run/secrets/" ++ secretID
            .ok (acc.1 ++ [RunOpt.secretOpt secretPath secretID],
                 acc.2 ++ [part0 ++ "=\"$(cat " ++ secretPath ++ ")\""]))
    ([], [])

/-- The build-args loop of `internalRun` (source lines 706-719): every
active non-env build arg is injected — constants as a `K="V"` env prelude,
non-constants as a mount of their variable state at `/run/buildargs/K` plus
a `K="$(cat ...)"` prelude. -/
def buildArgEnvOpts (vc : Collection) : List RunOpt × List String :=
  vc.sortedActiveVariables.foldl
    (fun acc buildArgName =>
      match vc.get buildArgName with
      | none => acc
      | some ba =>
          if ba.isEnvVar then acc
          else if ba.isConstant then
            (acc.1, acc.2 ++ [buildArgName ++ "=\"" ++ ba.constantValue ++ "\""])
          else
            let buildArgPath := "/run/buildargs/" ++ buildArgName
            (acc.1 ++ [RunOpt.mountOpt buildArgPath ba.variableState buildArgPath false],
             acc.2 ++ [buildArgName ++ "=\"$(cat " ++ buildArgPath ++ ")\""]))
    ([], [])

/-- `common.DebuggerSettingsSecretsKey` (external constant). -/
def debuggerSettingsSecretsKey : String := "earthly_debugger_settings"

/-- `debuggerPath` (defined outside the core source). -/
def debuggerPath : String := "/usr/bin/earth_debugger"

/-- The debugger secret and host-bind mounts attached by `internalRun`
(source lines 721-731). -/
def debuggerOpts : List RunOpt :=
  [RunOpt.secretOpt ("/run/secrets/" ++ debuggerSettingsSecretsKey) debuggerSettingsSecretsKey,
   RunOpt.mountOpt debuggerPath (LLBState.scratch "") "/usr/bin/earth_debugger" true,
   RunOpt.mountOpt "/run/earthly" (LLBState.scratch "") "/run/earthly" true]

/-- The two shell-wrap functions passed to `internalRun` (`shell.go` and
`withdocker.go` are outside the core source). -/
inductive ShellWrapKind where
  | shellAndEnvVars
  | dockerdWrapOld
  deriving DecidableEq

/-- Modelled from the spec: `withShellAndEnvVars` — join the args with shell
`-c` and prepend the env-var prelude; never wrap when `isWithShell` is false
(exec form). -/
def withShellAndEnvVars (args extraEnvVars : List String)
    (isWithShell withDebugger : Bool) : List String :=
  let _ := withDebugger
  if isWithShell then
    ["/bin/sh", "-c", String.intercalate " " (extraEnvVars ++ [String.intercalate " " args])]
  else args

/-- Modelled from the spec: `withDockerdWrapOld` — the dockerd-wrap shell
variant used for `--with-docker` runs. -/
def withDockerdWrapOld (args extraEnvVars : List String)
    (isWithShell withDebugger : Bool) : List String :=
  let _ := (isWithShell, withDebugger)
  ["/bin/sh", "-c",
   "dockerd-wrap " ++ String.intercalate " " (extraEnvVars ++ [String.intercalate " " args])]

/-- Dispatch a `ShellWrapKind`. -/
def applyShellWrap (k : ShellWrapKind) (args extraEnvVars : List String)
    (isWithShell withDebugger : Bool) : List String :=
  match k with
  | .shellAndEnvVars => withShellAndEnvVars args extraEnvVars isWithShell withDebugger
  | .dockerdWrapOld => withDockerdWrapOld args extraEnvVars isWithShell withDebugger

/-- The inputs of one `internalRun` invocation. `opts` are the run options
handed in by the caller (custom name, parsed mounts, security). -/
structure RunCmdI where
  args : List String
  secretKeyValues : List String
  isWithShell : Bool
  shellWrap : ShellWrapKind
  pushFlag : Bool
  withSSH : Bool
  commandStr : String
  opts : List RunOpt

/-- The final run-option list `internalRun` assembles before branching on
the push flag (source lines 681-737): caller options, then secret options,
build-arg mounts, debugger mounts, the optional SSH socket, and the
shell-wrapped argv. -/
def runStepOpts (vc : Collection) (cmd : RunCmdI) : Except String (List RunOpt) :=
  match processSecrets cmd.secretKeyValues with
  | .error e => .error e
  | .ok secretsRes =>
      let (baOpts, baEnvs) := buildArgEnvOpts vc
      let extraEnvVars := secretsRes.2 ++ baEnvs
      let finalArgs := applyShellWrap cmd.shellWrap cmd.args extraEnvVars cmd.isWithShell true
      .ok (cmd.opts ++ secretsRes.1 ++ baOpts ++ debuggerOpts ++
        (if cmd.withSSH then [RunOpt.sshSocket] else []) ++ [RunOpt.argsOpt finalArgs])

/-- `internalRun` from the source (lines 680-756): assemble the options; for
push-flagged commands disable caching, snapshot the side-effects state into
`RunPush` on first use, fold the run into `RunPush.State` and record the
command string; otherwise fold the run into `SideEffectsState`. -/
def internalRun (c : Converter) (cmd : RunCmdI) : Except (String × Converter) Converter :=
  match runStepOpts c.varCollection cmd with
  | .error e => .error (e, c)
  | .ok finalOpts0 =>
      if cmd.pushFlag then
        let finalOpts := finalOpts0 ++ [RunOpt.ignoreCache]
        let rp0 := c.mtsFinal.runPush
        let rp1 :=
          if !rp0.initialized then
            { rp0 with state := c.mtsFinal.sideEffectsState, initialized := true }
          else rp0
        let newPushState := LLBState.runSt rp1.state finalOpts
        let rp2 := { rp1 with state := newPushState,
                              commandStrs := rp1.commandStrs ++ [cmd.commandStr] }
        .ok { c with mtsFinal := { c.mtsFinal with runPush := rp2 } }
      else
        .ok { c with mtsFinal := { c.mtsFinal with
                sideEffectsState := LLBState.runSt c.mtsFinal.sideEffectsState finalOpts0 } }

/-- Apply a sequence of `internalRun` commands to one converter. -/
def applyRunSeq (c : Converter) : List RunCmdI → Except (String × Converter) Converter
  | [] => .ok c
  | cmd :: rest =>
      match internalRun c cmd with
      | .error e => .error e
      | .ok c' => applyRunSeq c' rest

/-- The `finalArgs` / `isWithShell` computation of `Run` (source lines
334-343). In the source, when `withEntrypoint` is set and `args` is empty, a
copy of the image CMD is made into a fresh `args` variable declared with
`:=` inside the if-block; that variable shadows the outer `args` and is
never read, so the append below still sees the outer (empty) `args` and the
image CMD never reaches the executed argv. The embedding reflects the
executed behavior. -/
def runEntrypointArgs (img : Image) (args : List String)
    (withEntrypoint isWithShell : Bool) : List String × Bool :=
  if withEntrypoint then (img.config.entrypoint ++ args, false)
  else (args, isWithShell)

/-- `Run` from the source (lines 313-360): compute the final argv and shell
mode, add the security option, build the `RUN ...` vertex label, pick the
shell wrap, and delegate to `internalRun`. `mountRunOpts` stands for the
successful result of `parseMounts` (`mounts.go` is outside the core
source); the deprecation warning for `--with-docker` is output only. -/
def Run (c : Converter) (args : List String) (mountRunOpts : List RunOpt)
    (secretKeyValues : List String)
    (privileged withEntrypoint withDocker isWithShell pushFlag withSSH : Bool) :
    Except (String × Converter) Converter :=
  let opts := mountRunOpts
  let (finalArgs, isWithShell2) :=
    runEntrypointArgs c.mtsFinal.sideEffectsImage args withEntrypoint isWithShell
  let opts := if privileged then opts ++ [RunOpt.securityInsecure] else opts
  let runStr := "RUN " ++ strIf privileged "--privileged " ++
    strIf withDocker "--with-docker " ++ strIf withEntrypoint "--entrypoint " ++
    strIf pushFlag "--push " ++ String.intercalate " " finalArgs
  let shellWrap :=
    if withDocker then ShellWrapKind.dockerdWrapOld else ShellWrapKind.shellAndEnvVars
  let opts := opts ++ [RunOpt.customName (c.vertexPfx ++ runStr)]
  internalRun c
    { args := finalArgs, secretKeyValues := secretKeyValues, isWithShell := isWithShell2,
      shellWrap := shellWrap, pushFlag := pushFlag, withSSH := withSSH,
      commandStr := runStr, opts := opts }

/-! ## Lemmas about `internalRun` sequences -/

/-- A successful non-push `internalRun` folds the run into the side-effects
state and leaves everything else alone. -/
theorem internalRun_nonpush {c c' : Converter} {cmd : RunCmdI}
    (hp : cmd.pushFlag = false) (h : internalRun c cmd = .ok c') :
    ∃ opts, runStepOpts c.varCollection cmd = .ok opts ∧
      c' = { c with mtsFinal := { c.mtsFinal with
              sideEffectsState := LLBState.runSt c.mtsFinal.sideEffectsState opts } } := by
  unfold internalRun at h
  cases hr : runStepOpts c.varCollection cmd with
  | error e => rw [hr] at h; cases h
  | ok opts =>
      rw [hr, hp] at h
      simp only [Bool.false_eq_true, if_false, Except.ok.injEq] at h
      exact ⟨opts, rfl, h.symm⟩

/-- A successful push `internalRun` leaves the side-effects state alone and
updates `RunPush` exactly as in the source. -/
theorem internalRun_push {c c' : Converter} {cmd : RunCmdI}
    (hp : cmd.pushFlag = true) (h : internalRun c cmd = .ok c') :
    ∃ opts, runStepOpts c.varCollection cmd = .ok opts ∧
      c' = { c with mtsFinal := { c.mtsFinal with runPush :=
        let rp0 := c.mtsFinal.runPush
        let rp1 :=
          if !rp0.initialized then
            { rp0 with state := c.mtsFinal.sideEffectsState, initialized := true }
          else rp0
        { rp1 with state := LLBState.runSt rp1.state (opts ++ [RunOpt.ignoreCache]),
                   commandStrs := rp1.commandStrs ++ [cmd.commandStr] } } } := by
  unfold internalRun at h
  cases hr : runStepOpts c.varCollection cmd with
  | error e => rw [hr] at h; cases h
  | ok opts =>
      rw [hr, hp] at h
      simp only [if_true, Except.ok.injEq] at h
      exact ⟨opts, rfl, h.symm⟩

/-- A successful `internalRun` never changes the variable collection, the
direct deps, the arg counter, or any STS field other than
`SideEffectsState` and `RunPush`. -/
theorem internalRun_frame {c c' : Converter} {cmd : RunCmdI}
    (h : internalRun c cmd = .ok c') :
    c'.varCollection = c.varCollection ∧ c'.directDeps = c.directDeps ∧
    c'.nextArgIndex = c.nextArgIndex ∧
    c'.mtsFinal.localDirs = c.mtsFinal.localDirs ∧
    c'.mtsFinal.saveLocals = c.mtsFinal.saveLocals ∧
    c'.mtsFinal.separateArtifactsState = c.mtsFinal.separateArtifactsState := by
  cases hp : cmd.pushFlag with
  | false => obtain ⟨opts, -, rfl⟩ := internalRun_nonpush hp h; exact ⟨rfl, rfl, rfl, rfl, rfl, rfl⟩
  | true => obtain ⟨opts, -, rfl⟩ := internalRun_push hp h; exact ⟨rfl, rfl, rfl, rfl, rfl, rfl⟩

/-- Splitting a successful run sequence at an append point. -/
theorem applyRunSeq_append {pre post : List RunCmdI} :
    ∀ {c c' : Converter}, applyRunSeq c (pre ++ post) = .ok c' →
      ∃ cm, applyRunSeq c pre = .ok cm ∧ applyRunSeq cm post = .ok c' := by
  induction pre with
  | nil => intro c c' h; exact ⟨c, rfl, h⟩
  | cons cmd rest ih =>
      intro c c' h
      simp only [List.cons_append, applyRunSeq] at h ⊢
      cases hi : internalRun c cmd with
      | error e => simp [hi] at h
      | ok c1 =>
          simp only [hi] at h
          obtain ⟨cm, h1, h2⟩ := ih h
          exact ⟨cm, h1, h2⟩

/-- Through a successful run sequence the `Initialized` flag of `RunPush`
becomes true exactly when it was true before or some command pushes. -/
theorem applyRunSeq_initialized {cmds : List RunCmdI} :
    ∀ {c c' : Converter}, applyRunSeq c cmds = .ok c' →
      c'.mtsFinal.runPush.initialized =
        (c.mtsFinal.runPush.initialized || cmds.any (fun k => k.pushFlag)) := by
  induction cmds with
  | nil => intro c c' h; cases h; simp
  | cons cmd rest ih =>
      intro c c' h
      simp only [applyRunSeq] at h
      cases hi : internalRun c cmd with
      | error e => simp [hi] at h
      | ok c1 =>
          simp only [hi] at h
          have hrest := ih h
          cases hp : cmd.pushFlag with
          | false =>
              obtain ⟨opts, -, rfl⟩ := internalRun_nonpush hp hi
              simp [hrest, hp, List.any_cons]
          | true =>
              obtain ⟨opts, -, rfl⟩ := internalRun_push hp hi
              simp only [List.any_cons, hp, Bool.true_or, Bool.or_true] at hrest ⊢
              rw [hrest]
              cases hinit : c.mtsFinal.runPush.initialized <;> simp [hinit]

/-- Through a successful run sequence, the recorded push command strings are
exactly those of the push-flagged commands, appended in order. -/
theorem applyRunSeq_commandStrs {cmds : List RunCmdI} :
    ∀ {c c' : Converter}, applyRunSeq c cmds = .ok c' →
      c'.mtsFinal.runPush.commandStrs =
        c.mtsFinal.runPush.commandStrs ++
          (cmds.filter (fun k => k.pushFlag)).map (fun k => k.commandStr) := by
  induction cmds with
  | nil => intro c c' h; cases h; simp
  | cons cmd rest ih =>
      intro c c' h
      simp only [applyRunSeq] at h
      cases hi : internalRun c cmd with
      | error e => simp [hi] at h
      | ok c1 =>
          simp only [hi] at h
          have hrest := ih h
          cases hp : cmd.pushFlag with
          | false =>
              obtain ⟨opts, -, rfl⟩ := internalRun_nonpush hp hi
              simpa [hp] using hrest
          | true =>
              obtain ⟨opts, -, rfl⟩ := internalRun_push hp hi
              simp only [hp, List.filter_cons_of_pos, List.map_cons] at hrest ⊢
              simp at hrest
              rw [hrest]
              cases hinit : c.mtsFinal.runPush.initialized <;> simp [hinit]

/-- Dropping the push-flagged commands from a successful sequence leaves the
side-effects state (and the variable collection) unchanged; push-flagged
runs never modify `SideEffectsState`. -/
theorem applyRunSeq_filter_nonpush {cmds : List RunCmdI} :
    ∀ {c d c' : Converter}, d.varCollection = c.varCollection →
      d.mtsFinal.sideEffectsState = c.mtsFinal.sideEffectsState →
      applyRunSeq c cmds = .ok c' →
      ∃ d', applyRunSeq d (cmds.filter (fun k => !k.pushFlag)) = .ok d' ∧
        d'.mtsFinal.sideEffectsState = c'.mtsFinal.sideEffectsState ∧
        d'.varCollection = c'.varCollection := by
  induction cmds with
  | nil =>
      intro c d c' hvc hse h
      cases h
      exact ⟨d, rfl, hse, hvc⟩
  | cons cmd rest ih =>
      intro c d c' hvc hse h
      simp only [applyRunSeq] at h
      cases hi : internalRun c cmd with
      | error e => simp [hi] at h
      | ok c1 =>
          simp only [hi] at h
          cases hp : cmd.pushFlag with
          | true =>
              obtain ⟨opts, -, rfl⟩ := internalRun_push hp hi
              rw [List.filter_cons_of_neg (by simp [hp])]
              refine ih ?_ ?_ h
              · simp [hvc]
              · simp [hse]
          | false =>
              obtain ⟨opts, hopts, rfl⟩ := internalRun_nonpush hp hi
              have hstep : internalRun d cmd = .ok
                  { d with mtsFinal := { d.mtsFinal with
                      sideEffectsState := LLBState.runSt d.mtsFinal.sideEffectsState opts } } := by
                unfold internalRun
                rw [hvc, hopts, hp]
                simp
              simp only [hp, Bool.not_false, List.filter_cons_of_pos]
              simp only [applyRunSeq, hstep]
              refine ih ?_ ?_ h
              · simp [hvc]
              · simp [hse]

/-- Once `RunPush` is initialized, a successful run sequence chains exactly
the push-flagged commands onto `RunPush.State`, each with cache disabled. -/
theorem applyRunSeq_push_chain {cmds : List RunCmdI} :
    ∀ {c c' : Converter}, c.mtsFinal.runPush.initialized = true →
      applyRunSeq c cmds = .ok c' →
      ∃ optsList : List (List RunOpt),
        c'.mtsFinal.runPush.state = optsList.foldl LLBState.runSt c.mtsFinal.runPush.state ∧
        optsList.length = ((cmds.filter (fun k => k.pushFlag)).length) ∧
        (∀ o ∈ optsList, RunOpt.ignoreCache ∈ o) ∧
        c'.mtsFinal.runPush.initialized = true := by
  induction cmds with
  | nil =>
      intro c c' hinit h
      cases h
      exact ⟨[], rfl, by simp, by simp, hinit⟩
  | cons cmd rest ih =>
      intro c c' hinit h
      simp only [applyRunSeq] at h
      cases hi : internalRun c cmd with
      | error e => simp [hi] at h
      | ok c1 =>
          simp only [hi] at h
          cases hp : cmd.pushFlag with
          | false =>
              obtain ⟨opts, -, rfl⟩ := internalRun_nonpush hp hi
              obtain ⟨l, h1, h2, h3, h4⟩ := ih (by simpa using hinit) h
              exact ⟨l, by simpa using h1, by simp [hp, h2], h3, h4⟩
          | true =>
              obtain ⟨opts, -, rfl⟩ := internalRun_push hp hi
              obtain ⟨l, h1, h2, h3, h4⟩ := ih (by simp [hinit]) h
              refine ⟨(opts ++ [RunOpt.ignoreCache]) :: l, ?_, ?_, ?_, h4⟩
              · rw [h1]
                simp [hinit]
              · simp [hp, h2]
              · intro o ho
                cases ho with
                | head => simp
                | tail _ ho' => exact h3 o ho'

/-- Non-push commands leave `RunPush` untouched. -/
theorem applyRunSeq_nonpush_runPush {cmds : List RunCmdI} :
    ∀ {c c' : Converter}, (∀ q ∈ cmds, q.pushFlag = false) →
      applyRunSeq c cmds = .ok c' →
      c'.mtsFinal.runPush = c.mtsFinal.runPush := by
  induction cmds with
  | nil => intro c c' _ h; cases h; rfl
  | cons cmd rest ih =>
      intro c c' hall h
      simp only [applyRunSeq] at h
      cases hi : internalRun c cmd with
      | error e => simp [hi] at h
      | ok c1 =>
          simp only [hi] at h
          obtain ⟨opts, -, rfl⟩ :=
            internalRun_nonpush (hall cmd (List.mem_cons_self cmd rest)) hi
          have := ih (fun q hq => hall q (List.mem_cons_of_mem cmd hq)) h
          simpa using this

/-- C1: over every successful sequence of RUN commands applied to one
converter whose `RunPush` starts uninitialized: push-flagged runs never
modify `SideEffectsState` (filtering them out yields the same side-effects
state); `RunPush.Initialized` holds iff at least one push-flagged RUN was
applied; every push-flagged run's command string is appended to
`RunPush.CommandStrs` in order; and at the first push-flagged RUN,
`RunPush.State` is initialized to the `SideEffectsState` as it was at that
instant, with every subsequent push-flagged run chained onto `RunPush.State`
with cache disabled. -/
theorem run_push_invariants (c0 c1 : Converter) (cmds : List RunCmdI)
    (h0 : c0.mtsFinal.runPush.initialized = false)
    (hok : applyRunSeq c0 cmds = .ok c1) :
    (∃ c2, applyRunSeq c0 (cmds.filter (fun k => !k.pushFlag)) = .ok c2 ∧
        c1.mtsFinal.sideEffectsState = c2.mtsFinal.sideEffectsState) ∧
    c1.mtsFinal.runPush.initialized = cmds.any (fun k => k.pushFlag) ∧
    c1.mtsFinal.runPush.commandStrs =
      c0.mtsFinal.runPush.commandStrs ++
        (cmds.filter (fun k => k.pushFlag)).map (fun k => k.commandStr) ∧
    (∀ pre p post, cmds = pre ++ p :: post → p.pushFlag = true →
      (∀ q ∈ pre, q.pushFlag = false) →
      ∃ (cpre : Converter) (optsList : List (List RunOpt)), applyRunSeq c0 pre = .ok cpre ∧
        c1.mtsFinal.runPush.state =
          optsList.foldl LLBState.runSt cpre.mtsFinal.sideEffectsState ∧
        optsList.length = ((p :: post).filter (fun k => k.pushFlag)).length ∧
        ∀ o ∈ optsList, RunOpt.ignoreCache ∈ o) := by
  refine ⟨?_, ?_, applyRunSeq_commandStrs hok, ?_⟩
  · obtain ⟨d', h1, h2, h3⟩ := applyRunSeq_filter_nonpush rfl rfl hok
    exact ⟨d', h1, h2.symm⟩
  · rw [applyRunSeq_initialized hok, h0, Bool.false_or]
  · intro pre p post hsplit hp hpre
    subst hsplit
    obtain ⟨cpre, hpre_ok, hrest_ok⟩ := applyRunSeq_append hok
    have hrp : cpre.mtsFinal.runPush = c0.mtsFinal.runPush :=
      applyRunSeq_nonpush_runPush hpre hpre_ok
    simp only [applyRunSeq] at hrest_ok
    cases hi : internalRun cpre p with
    | error e => rw [hi] at hrest_ok; cases hrest_ok
    | ok cp =>
        rw [hi] at hrest_ok
        obtain ⟨opts, -, rfl⟩ := internalRun_push hp hi
        have hinitp : cpre.mtsFinal.runPush.initialized = false := by rw [hrp]; exact h0
        have hinitcp : ({ cpre with mtsFinal := { cpre.mtsFinal with runPush :=
            let rp0 := cpre.mtsFinal.runPush
            let rp1 :=
              if !rp0.initialized then
                { rp0 with state := cpre.mtsFinal.sideEffectsState, initialized := true }
              else rp0
            { rp1 with state := LLBState.runSt rp1.state (opts ++ [RunOpt.ignoreCache]),
                       commandStrs := rp1.commandStrs ++ [p.commandStr] } } } :
            Converter).mtsFinal.runPush.initialized = true := by
          simp [hinitp]
        obtain ⟨l, h1, h2, h3, -⟩ := applyRunSeq_push_chain hinitcp hrest_ok
        refine ⟨cpre, (opts ++ [RunOpt.ignoreCache]) :: l, hpre_ok, ?_, ?_, ?_⟩
        · rw [h1]
          simp [hinitp]
        · simp [hp, h2]
        · intro o ho
          cases ho with
          | head => simp
          | tail _ ho' => exact h3 o ho'

/-- A small concrete target for witnesses. -/
def witnessTarget : Target :=
  { projectPath := "", name := "t", tag := "", localPath := "" }

/-- A small concrete converter for witnesses, built by `NewConverter`. -/
def witnessConverter : Converter :=
  NewConverter witnessTarget [] (LLBState.scratch targetPlatform) "42"
    { varCollection := Collection.newCollection }

/-- A simple run command for witnesses. -/
def witnessRunCmd (s : String) (push : Bool) : RunCmdI :=
  { args := [s], secretKeyValues := [], isWithShell := true,
    shellWrap := .shellAndEnvVars, pushFlag := push, withSSH := false,
    commandStr := "RUN " ++ s, opts := [] }

/-- The push-ordering scenario of the spec: `RUN a`, `RUN --push b`,
`RUN c`, `RUN --push d`. -/
def witnessRunCmds : List RunCmdI :=
  [witnessRunCmd "a" false, witnessRunCmd "b" true,
   witnessRunCmd "c" false, witnessRunCmd "d" true]

/-- Witness for `run_push_invariants` at a concrete converter and command
sequence. -/
theorem run_push_invariants_witness :
    witnessConverter.mtsFinal.runPush.initialized = false ∧
    ∃ c1, applyRunSeq witnessConverter witnessRunCmds = .ok c1 ∧
      c1.mtsFinal.runPush.initialized = witnessRunCmds.any (fun k => k.pushFlag) := by
  refine ⟨rfl, ⟨_, rfl, ?_⟩⟩
  exact (run_push_invariants witnessConverter _ witnessRunCmds rfl rfl).2.1

/-- C2: evaluation of the `Run` argv computation at the failing input. With
`withEntrypoint = true`, an image whose entrypoint is `/entry` and whose cmd
is `serve`, and an empty args list, the source's shadowed CMD copy is
discarded, so the computed argv is just the entrypoint — not
`entrypoint ++ cmd` as the spec claims — while `withShell` is forced off
and the entrypoint is prepended as specified. -/
theorem run_entrypoint_drops_cmd :
    (runEntrypointArgs
        { config := { Image.newImage.config with entrypoint := ["/entry"], cmd := ["serve"] } }
        [] true true) =
      (["/entry"], false) ∧
    (runEntrypointArgs
        { config := { Image.newImage.config with entrypoint := ["/entry"], cmd := ["serve"] } }
        [] true true).1 ≠ ["/entry"] ++ ["serve"] := by
  exact ⟨rfl, by decide⟩

/-! ## Non-constant build args and build-arg parsing -/

/-- `processNonConstantBuildArgFunc` from the source (lines 903-935): run
the expression on the caller's side-effects state — a mkdir of
`/run/buildargs-src`, a shell `echo "<expression>" >file` run, then an rm of
the intermediary file, all folded into the caller's `SideEffectsState` —
copy the result into an isolated scratch state, and hand out the current
`nextArgIndex`, incrementing the counter. -/
def processNonConstantBuildArg (c : Converter) (name expression : String) :
    Except (String × Converter) ((LLBState × TargetInput × Nat) × Converter) :=
  let srcBuildArgDir := "/run/buildargs-src"
  let srcBuildArgPath := srcBuildArgDir ++ "/" ++ name
  let mkdirState := LLBState.fileMkdir c.mtsFinal.sideEffectsState srcBuildArgDir 0o755 true
    none ("[internal] mkdir " ++ srcBuildArgDir)
  let c1 := { c with mtsFinal := { c.mtsFinal with sideEffectsState := mkdirState } }
  let buildArgPath := "/run/buildargs/" ++ name
  let args := strSplitOn ("echo \"" ++ expression ++ "\" >" ++ srcBuildArgPath) ' '
  match internalRun c1
      { args := args, secretKeyValues := [], isWithShell := true,
        shellWrap := .shellAndEnvVars, pushFlag := false, withSSH := false,
        commandStr := expression,
        opts := [RunOpt.customName (c1.vertexPfx ++ "RUN " ++ expression)] } with
  | .error e => .error ("run " ++ expression ++ ": " ++ e.1, e.2)
  | .ok c2 =>
      let buildArgState := LLBState.copySt c2.mtsFinal.sideEffectsState [srcBuildArgPath]
        (LLBState.scratch targetPlatform) buildArgPath false false ""
        ("[internal] copy buildarg " ++ name)
      let argIndex := c2.nextArgIndex
      let c3 := { c2 with nextArgIndex := c2.nextArgIndex + 1 }
      let rmState := LLBState.fileRm c3.mtsFinal.sideEffectsState srcBuildArgPath true
        ("[internal] rm " ++ srcBuildArgPath)
      let c4 := { c3 with mtsFinal := { c3.mtsFinal with sideEffectsState := rmState } }
      .ok ((buildArgState, c4.mtsFinal.targetInput, argIndex), c4)

/-- Modelled from the spec: one step of `WithParseBuildArgs` — `K=V` adds a
constant overriding binding; a bare `K` that is already visible is carried
through; otherwise the non-constant processor is invoked on `(K, K)` and a
non-constant overriding binding is added. (The source-target-input a
non-constant binding carries is not represented; no claim depends on it.) -/
def parseOneBuildArg (vc : Collection) (c : Converter) (arg : String) :
    Except (String × Converter) (Collection × Converter) :=
  if (strSplitOn arg '=').length ≥ 2 then
    let kv := parseKeyValue arg
    .ok ({ vc with overriding := setVarAssoc vc.overriding kv.1 (.constant kv.2) }, c)
  else
    match vc.get arg with
    | some existing =>
        .ok ({ vc with overriding := setVarAssoc vc.overriding arg existing }, c)
    | none =>
        match processNonConstantBuildArg c arg arg with
        | .error e => .error e
        | .ok (res, c') =>
            .ok ({ vc with overriding :=
                setVarAssoc vc.overriding arg (.nonConstant res.1 res.2.2) }, c')

/-- Modelled from the spec: `WithParseBuildArgs` folds the build-arg strings
into a collection, threading the converter through the non-constant
processor. -/
def withParseBuildArgsGo :
    Collection → Converter → List String → Except (String × Converter) (Collection × Converter)
  | vc, c, [] => .ok (vc, c)
  | vc, c, arg :: rest =>
      match parseOneBuildArg vc c arg with
      | .error e => .error e
      | .ok (vcc) => withParseBuildArgsGo vcc.1 vcc.2 rest

/-- The runs of `WithParseBuildArgs` in which no argument invokes the
non-constant build-arg processor: every step is a constant `K=V`, or a bare
name already visible in the collection as parsed so far. Mirrors the
control flow of `parseOneBuildArg` step for step. -/
def bareArgsBound : Collection → List String → Bool
  | _, [] => true
  | vc, arg :: rest =>
      if (strSplitOn arg '=').length ≥ 2 then
        let ov := setVarAssoc vc.overriding (parseKeyValue arg).1
          (Variable.constant (parseKeyValue arg).2)
        bareArgsBound { vc with overriding := ov } rest
      else
        match vc.get arg with
        | some existing =>
            bareArgsBound { vc with overriding := setVarAssoc vc.overriding arg existing } rest
        | none => false

/-- The callee variable collection computed by `Build` (source lines
447-455): an external target starts from an empty collection — the caller's
overriding args do not cross project boundaries — while an internal target
starts from the caller's collection; the explicit build args are then
parsed on top. -/
def buildNewVarCollection (c : Converter) (relTarget : Target) (buildArgs : List String) :
    Except (String × Converter) (Collection × Converter) :=
  let base := if relTarget.isExternal then Collection.newCollection else c.varCollection
  withParseBuildArgsGo base c buildArgs

/-- `Build` from the source (lines 433-473): parse and join the reference,
compute the callee collection, recurse (the recursive `Earthfile2LLB` entry
is outside the core source; `depResult` stands for the MTS it returned),
and append the dep's final STS to the caller's `directDeps`. -/
def Build (c : Converter) (fullTargetName : String) (buildArgs : List String)
    (depResult : MultiTargetStates) :
    Except (String × Converter) (MultiTargetStates × Converter) :=
  match parseTarget fullTargetName with
  | .error e => .error ("earth target parse " ++ fullTargetName ++ ": " ++ e, c)
  | .ok relTarget =>
      match buildNewVarCollection c relTarget buildArgs with
      | .error e => .error ("parse build args: " ++ e.1, e.2)
      | .ok res =>
          .ok (depResult,
            { res.2 with directDeps := res.2.directDeps ++ [depResult.finalStates] })

/-- With no secrets, the run-option assembly of `internalRun` always
succeeds, with the shell-wrapped argv as the final option. -/
theorem runStepOpts_no_secrets (vc : Collection) (cmd : RunCmdI)
    (hs : cmd.secretKeyValues = []) :
    runStepOpts vc cmd = .ok (cmd.opts ++ (buildArgEnvOpts vc).1 ++ debuggerOpts ++
      (if cmd.withSSH then [RunOpt.sshSocket] else []) ++
      [RunOpt.argsOpt (applyShellWrap cmd.shellWrap cmd.args
        ((buildArgEnvOpts vc).2) cmd.isWithShell true)]) := by
  unfold runStepOpts
  rw [hs]
  have hps : processSecrets ([] : List String) = Except.ok ([], []) := rfl
  rw [hps]
  simp

/-- With no secrets, a non-push `internalRun` always succeeds and folds the
run into the side-effects state. -/
theorem internalRun_no_secrets_nonpush (c : Converter) (cmd : RunCmdI)
    (hs : cmd.secretKeyValues = []) (hp : cmd.pushFlag = false) :
    internalRun c cmd = .ok { c with mtsFinal := { c.mtsFinal with
        sideEffectsState := LLBState.runSt c.mtsFinal.sideEffectsState
          (cmd.opts ++ (buildArgEnvOpts c.varCollection).1 ++ debuggerOpts ++
           (if cmd.withSSH then [RunOpt.sshSocket] else []) ++
           [RunOpt.argsOpt (applyShellWrap cmd.shellWrap cmd.args
              ((buildArgEnvOpts c.varCollection).2) cmd.isWithShell true)]) } } := by
  unfold internalRun
  rw [runStepOpts_no_secrets _ _ hs, hp]
  simp

/-- C10: whenever a bare (non-constant) build argument is processed, the
caller's own `SideEffectsState` is mutated as a side effect — a mkdir of
`/run/buildargs-src`, a shell run of `echo "<expression>"` redirected into
that directory, and an rm of the intermediary file are appended — and the
argument receives the converter counter's current value as its argIndex,
with the counter incremented so that successive arguments get strictly
increasing indices. -/
theorem process_nonconstant_frame (c : Converter) (name expression : String) :
    ∃ st ti c',
      processNonConstantBuildArg c name expression = .ok ((st, ti, c.nextArgIndex), c') ∧
      (∃ runOpts,
        c'.mtsFinal.sideEffectsState =
          LLBState.fileRm
            (LLBState.runSt
              (LLBState.fileMkdir c.mtsFinal.sideEffectsState "/run/buildargs-src" 0o755 true
                none "[internal] mkdir /run/buildargs-src")
              runOpts)
            ("/run/buildargs-src/" ++ name) true
            ("[internal] rm " ++ ("/run/buildargs-src/" ++ name)) ∧
        (∃ extraEnv, RunOpt.argsOpt (withShellAndEnvVars
            (strSplitOn ("echo \"" ++ expression ++ "\" >" ++ ("/run/buildargs-src/" ++ name)) ' ')
            extraEnv true true) ∈ runOpts)) ∧
      c'.nextArgIndex = c.nextArgIndex + 1 ∧
      ti = c.mtsFinal.targetInput := by
  unfold processNonConstantBuildArg
  simp only [internalRun_no_secrets_nonpush]
  refine ⟨_, _, _, rfl, ?_, rfl, rfl⟩
  refine ⟨_, rfl, ?_⟩
  exact ⟨_, List.mem_append_right _ (List.mem_singleton_self _)⟩

/-! ## External-target isolation (`Build` + `NewConverter`) -/

/-- The name a build-arg string binds: the part before `=` for `K=V`, the
whole string for a bare `K`. -/
def argKey (arg : String) : String :=
  if (strSplitOn arg '=').length ≥ 2 then (parseKeyValue arg).1 else arg

/-- The name recorded by `Variable.buildArgInput` is the given name. -/
theorem Variable.buildArgInput_name (v : Variable) (k d : String) :
    (v.buildArgInput k d).name = k := by
  cases v <;> rfl

/-- Looking up after `setVarAssoc`. -/
theorem lookupVarAssoc_setVarAssoc (m : List (String × Variable)) (k k' : String) (v : Variable) :
    lookupVarAssoc (setVarAssoc m k v) k' =
      if k' = k then some v else lookupVarAssoc m k' := by
  induction m with
  | nil =>
      by_cases h : k' = k
      · simp [setVarAssoc, lookupVarAssoc, h]
      · simp [setVarAssoc, lookupVarAssoc, h, beq_iff_eq, Ne.symm h]
  | cons kv rest ih =>
      by_cases hak : kv.1 = k
      · by_cases h : k' = k
        · simp [setVarAssoc, lookupVarAssoc, hak, h]
        · simp [setVarAssoc, lookupVarAssoc, hak, h, beq_iff_eq, Ne.symm h]
      · by_cases h : k' = k
        · subst h
          simp [setVarAssoc, lookupVarAssoc, hak, beq_iff_eq, ih, Ne.symm hak]
        · by_cases hkv : kv.1 = k'
          · simp [setVarAssoc, lookupVarAssoc, hak, hkv, beq_iff_eq, h]
          · simp [setVarAssoc, lookupVarAssoc, hak, hkv, beq_iff_eq, h, ih]

/-- A name present after `setVarAssoc` was present before or is the set key. -/
theorem mem_setVarAssoc_names {m : List (String × Variable)} {k k' : String} {v : Variable} :
    k' ∈ (setVarAssoc m k v).map Prod.fst → k' ∈ m.map Prod.fst ∨ k' = k := by
  induction m with
  | nil => intro h; simp [setVarAssoc] at h; exact Or.inr h
  | cons kv rest ih =>
      intro h
      simp only [setVarAssoc] at h
      by_cases hak : kv.1 == k
      · rw [if_pos hak] at h
        simp only [List.map_cons, List.mem_cons] at h
        rcases h with h | h
        · exact Or.inr h
        · exact Or.inl (List.mem_cons_of_mem kv.1 h)
      · rw [if_neg hak] at h
        simp only [List.map_cons, List.mem_cons] at h
        rcases h with h | h
        · exact Or.inl (by rw [List.map_cons, h]; exact List.mem_cons_self _ _)
        · rcases ih h with h' | h'
          · exact Or.inl (List.mem_cons_of_mem kv.1 h')
          · exact Or.inr h'

/-- A successful `parseOneBuildArg` sets one overriding binding under the
arg's key and leaves the active tier alone. -/
theorem parseOneBuildArg_overriding {vc : Collection} {c : Converter} {arg : String}
    {res : Collection × Converter}
    (h : parseOneBuildArg vc c arg = .ok res) :
    ∃ v, res.1.overriding = setVarAssoc vc.overriding (argKey arg) v ∧
      res.1.active = vc.active := by
  unfold parseOneBuildArg at h
  by_cases hc : (strSplitOn arg '=').length ≥ 2
  · rw [if_pos hc] at h
    cases h
    exact ⟨Variable.constant (parseKeyValue arg).2, by simp [argKey, hc], rfl⟩
  · rw [if_neg hc] at h
    cases hg : vc.get arg with
    | some existing =>
        rw [hg] at h
        cases h
        exact ⟨existing, by simp [argKey, hc], rfl⟩
    | none =>
        rw [hg] at h
        cases hp : processNonConstantBuildArg c arg arg with
        | error e => rw [hp] at h; cases h
        | ok r =>
            rw [hp] at h
            cases h
            exact ⟨Variable.nonConstant r.1.1 r.1.2.2, by simp [argKey, hc], rfl⟩

/-- Names overriding after `withParseBuildArgsGo` were overriding before or
are keys of the parsed args. -/
theorem withParseBuildArgs_overriding_names {args : List String} :
    ∀ {vc : Collection} {c : Converter} {res : Collection × Converter},
      withParseBuildArgsGo vc c args = .ok res →
      ∀ k', k' ∈ res.1.overriding.map Prod.fst →
        k' ∈ vc.overriding.map Prod.fst ∨ k' ∈ args.map argKey := by
  induction args with
  | nil =>
      intro vc c res h k' hk
      cases h
      exact Or.inl hk
  | cons arg rest ih =>
      intro vc c res h k' hk
      simp only [withParseBuildArgsGo] at h
      cases hp : parseOneBuildArg vc c arg with
      | error e => rw [hp] at h; cases h
      | ok vcc =>
          rw [hp] at h
          obtain ⟨v, hov, -⟩ := parseOneBuildArg_overriding hp
          rcases ih h k' hk with h' | h'
          · rw [hov] at h'
            rcases mem_setVarAssoc_names h' with h'' | h''
            · exact Or.inl h''
            · exact Or.inr (by rw [List.map_cons, h'']; exact List.mem_cons_self _ _)
          · exact Or.inr (List.mem_cons_of_mem (argKey arg) h')

/-- `withParseBuildArgsGo` leaves the active tier unchanged and preserves
overriding bindings whose name no parsed arg binds. -/
theorem withParseBuildArgs_preserved {args : List String} :
    ∀ {vc : Collection} {c : Converter} {res : Collection × Converter},
      withParseBuildArgsGo vc c args = .ok res →
      res.1.active = vc.active ∧
      ∀ k, k ∉ args.map argKey →
        lookupVarAssoc res.1.overriding k = lookupVarAssoc vc.overriding k := by
  induction args with
  | nil =>
      intro vc c res h
      cases h
      exact ⟨rfl, fun _ _ => rfl⟩
  | cons arg rest ih =>
      intro vc c res h
      simp only [withParseBuildArgsGo] at h
      cases hp : parseOneBuildArg vc c arg with
      | error e => rw [hp] at h; cases h
      | ok vcc =>
          rw [hp] at h
          obtain ⟨v, hov, hact⟩ := parseOneBuildArg_overriding hp
          obtain ⟨ih1, ih2⟩ := ih h
          refine ⟨ih1.trans hact, ?_⟩
          intro k hk
          have hk1 : k ∉ rest.map argKey := by
            intro hmem; exact hk (List.mem_cons_of_mem (argKey arg) hmem)
          have hk2 : k ≠ argKey arg := by
            intro he
            exact hk (by rw [List.map_cons, he]; exact List.mem_cons_self _ _)
          rw [ih2 k hk1, hov, lookupVarAssoc_setVarAssoc, if_neg hk2]

/-- Membership in `insertSorted`. -/
theorem mem_insertSorted {x k : String} {l : List String} :
    x ∈ insertSorted k l → x = k ∨ x ∈ l := by
  induction l with
  | nil => intro h; simp [insertSorted] at h; exact Or.inl h
  | cons y rest ih =>
      intro h
      simp only [insertSorted] at h
      by_cases hc : k ≤ y
      · rw [if_pos hc] at h
        simpa using h
      · rw [if_neg hc] at h
        simp only [List.mem_cons] at h
        rcases h with h | h
        · exact Or.inr (by simp [h])
        · rcases ih h with h' | h'
          · exact Or.inl h'
          · exact Or.inr (by simp [List.mem_cons]; exact Or.inr h')

/-- Membership in `sortStrings`. -/
theorem mem_sortStrings {x : String} {l : List String} :
    x ∈ sortStrings l → x ∈ l := by
  induction l with
  | nil => intro h; simp [sortStrings] at h
  | cons y rest ih =>
      intro h
      simp only [sortStrings, List.foldr] at h
      rcases mem_insertSorted h with h' | h'
      · simp [h']
      · exact List.mem_cons_of_mem y (ih h')

/-- Names in the `TargetInput` built by the `NewConverter` seeding loop come
from the seed input or from the iterated keys. -/
theorem tiFold_names (vc : Collection) (keys : List String) :
    ∀ (ti : TargetInput) (x : String),
      x ∈ ((keys.foldl (fun ti key =>
          match vc.get key with
          | some ovVar => ti.withBuildArgInput (ovVar.buildArgInput key "")
          | none => ti) ti).buildArgs.map BuildArgInput.name) →
      x ∈ ti.buildArgs.map BuildArgInput.name ∨ x ∈ keys := by
  induction keys with
  | nil => intro ti x h; exact Or.inl h
  | cons key rest ih =>
      intro ti x h
      rw [List.foldl_cons] at h
      rcases ih _ x h with h' | h'
      · cases hg : vc.get key with
        | some ovVar =>
            rw [hg] at h'
            simp only [TargetInput.withBuildArgInput, List.map_append, List.mem_append] at h'
            rcases h' with h'' | h''
            · exact Or.inl h''
            · simp only [List.map_cons, List.map_nil, List.mem_singleton,
                Variable.buildArgInput_name] at h''
              exact Or.inr (by simp [h''])
        | none =>
            rw [hg] at h'
            exact Or.inl h'
      · exact Or.inr (List.mem_cons_of_mem key h')

/-- C3: for every `Build` of an external target, the callee's variable
collection starts empty apart from the explicitly passed build args, so
every build-arg name in the callee's `TargetInput` (as seeded by
`NewConverter`) comes from the passed build args — no overriding argument of
the caller ever crosses; for internal targets the caller's collection is
carried through: the active tier is reused as-is and every caller overriding
binding not named by the build args survives unchanged. -/
theorem build_external_isolation (c : Converter) (relTarget calleeTarget : Target)
    (buildArgs : List String) (res : Collection × Converter)
    (bcLocalDirs : List (String × String)) (bcCtx : LLBState) (salt : String)
    (hok : buildNewVarCollection c relTarget buildArgs = .ok res) :
    (relTarget.isExternal = true →
      ∀ k, k ∈ ((NewConverter calleeTarget bcLocalDirs bcCtx salt
            { varCollection := res.1 }).mtsFinal.targetInput.buildArgs.map
            BuildArgInput.name) →
        k ∈ buildArgs.map argKey) ∧
    (relTarget.isExternal = false →
      res.1.active = c.varCollection.active ∧
      ∀ k, k ∉ buildArgs.map argKey →
        lookupVarAssoc res.1.overriding k = lookupVarAssoc c.varCollection.overriding k) := by
  unfold buildNewVarCollection at hok
  constructor
  · intro hext k hk
    rw [hext] at hok
    simp only [if_pos] at hok
    have h1 := tiFold_names res.1 (res.1.sortedOverridingVariables) _ k hk
    rcases h1 with h1 | h1
    · simp [NewConverter] at h1
    · have h2 := mem_sortStrings h1
      rcases withParseBuildArgs_overriding_names hok k h2 with h3 | h3
      · simp [Collection.newCollection] at h3
      · exact h3
  · intro hext
    rw [hext] at hok
    simp only [Bool.false_eq_true, if_false] at hok
    exact withParseBuildArgs_preserved hok

/-! ## FROM target (`fromTarget`) -/

/-- `fromTarget` from the source (lines 121-155): parse the target, build it
recursively, fix up the local path for local-internal targets, require at
least one saved image in the result, then adopt the last saved image's
state and cloned config, union the dep's `LocalDirs` into the caller's and
merge the saved image's env entries into the active bindings. -/
def fromTarget (c : Converter) (targetName : String) (buildArgs : List String)
    (depResult : MultiTargetStates) : Except (String × Converter) Converter :=
  match parseTarget targetName with
  | .error e => .error ("parse target name " ++ targetName ++ ": " ++ e, c)
  | .ok depTarget0 =>
      match Build c depTarget0.toString buildArgs depResult with
      | .error e => .error ("apply build " ++ depTarget0.toString ++ ": " ++ e.1, e.2)
      | .ok bres =>
          let c1 := bres.2
          let depTarget :=
            if depTarget0.isLocalInternal then
              { depTarget0 with localPath := c.mtsFinal.target.localPath }
            else depTarget0
          let relevantDepState := bres.1.finalStates
          match relevantDepState.lastSaveImage with
          | none =>
              .error ("FROM statement: referenced target " ++ depTarget.toString ++
                " does not contain a SAVE IMAGE statement", c1)
          | some saveImage =>
              let newDirs := unionAssoc c1.mtsFinal.localDirs relevantDepState.localDirs
              let newVC := saveImage.image.config.env.foldl
                (fun vc kv =>
                  (vc.addActive (parseKeyValue kv).1
                    (Variable.constantEnv (parseKeyValue kv).2) true).2)
                c1.varCollection
              .ok { c1 with
                mtsFinal := { c1.mtsFinal with
                  sideEffectsState := saveImage.state,
                  localDirs := newDirs,
                  sideEffectsImage := saveImage.image.clone },
                varCollection := newVC }

/-- The value the env-merge fold of `fromTarget` leaves for a key: the
value of the key's last `K=V` entry in the saved image's env list, if
any (a later entry for the same key overwrites an earlier one). -/
def lastEnvBinding : List String → String → Option String
  | [], _ => none
  | kv :: rest, k =>
      match lastEnvBinding rest k with
      | some v => some v
      | none =>
          if (parseKeyValue kv).1 == k then some (parseKeyValue kv).2 else none

/-- Looking up after `setAssoc`. -/
theorem lookupAssoc_setAssoc (m : List (String × String)) (k k' v : String) :
    lookupAssoc (setAssoc m k v) k' = if k' = k then some v else lookupAssoc m k' := by
  induction m with
  | nil =>
      by_cases h : k' = k
      · simp [setAssoc, lookupAssoc, h]
      · simp [setAssoc, lookupAssoc, h, beq_iff_eq, Ne.symm h]
  | cons kv rest ih =>
      by_cases hak : kv.1 = k
      · by_cases h : k' = k
        · simp [setAssoc, lookupAssoc, hak, h]
        · simp [setAssoc, lookupAssoc, hak, h, beq_iff_eq, Ne.symm h]
      · by_cases h : k' = k
        · subst h
          simp [setAssoc, lookupAssoc, hak, beq_iff_eq, ih, Ne.symm hak]
        · by_cases hkv : kv.1 = k'
          · simp [setAssoc, lookupAssoc, hak, hkv, beq_iff_eq, h]
          · simp [setAssoc, lookupAssoc, hak, hkv, beq_iff_eq, h, ih]

/-- `unionAssoc` leaves keys that `add` does not mention alone. -/
theorem lookupAssoc_unionAssoc_not_mem (add : List (String × String)) :
    ∀ (base : List (String × String)) (k : String), k ∉ add.map Prod.fst →
      lookupAssoc (unionAssoc base add) k = lookupAssoc base k := by
  induction add with
  | nil => intro base k _; rfl
  | cons kv rest ih =>
      intro base k hk
      have hk1 : k ∉ rest.map Prod.fst := fun hm => hk (List.mem_cons_of_mem kv.1 hm)
      have hk2 : k ≠ kv.1 := by
        intro he
        exact hk (by rw [List.map_cons, he]; exact List.mem_cons_self _ _)
      show lookupAssoc (unionAssoc (setAssoc base kv.1 kv.2) rest) k = _
      rw [ih _ k hk1, lookupAssoc_setAssoc, if_neg hk2]

/-- After `unionAssoc`, every entry of a duplicate-free `add` is present. -/
theorem lookupAssoc_unionAssoc_mem (add : List (String × String)) :
    ∀ (base : List (String × String)) (k v : String), (add.map Prod.fst).Nodup →
      lookupAssoc add k = some v → lookupAssoc (unionAssoc base add) k = some v := by
  induction add with
  | nil => intro base k v _ h; cases h
  | cons kv rest ih =>
      intro base k v hnd h
      rw [List.map_cons, List.nodup_cons] at hnd
      show lookupAssoc (unionAssoc (setAssoc base kv.1 kv.2) rest) k = some v
      by_cases hk : kv.1 = k
      · have hv : v = kv.2 := by
          simp [lookupAssoc, hk, beq_iff_eq] at h
          exact h.symm
        subst hk
        rw [lookupAssoc_unionAssoc_not_mem rest _ kv.1 hnd.1, lookupAssoc_setAssoc, if_pos rfl,
          hv]
      · have h' : lookupAssoc rest k = some v := by
          simpa [lookupAssoc, beq_iff_eq, hk] using h
        exact ih _ k v hnd.2 h'

/-- `addActive` with `overrideOK = true` always writes the active tier. -/
theorem addActive_true_collection (vc : Collection) (k : String) (v : Variable) :
    (vc.addActive k v true).2 = { vc with active := setVarAssoc vc.active k v } := by
  unfold Collection.addActive
  cases lookupVarAssoc vc.overriding k <;> rfl

/-- `addActive` with `overrideOK = true` makes the name visible. -/
theorem get_addActive_true_isSome (vc : Collection) (k : String) (v : Variable) :
    ((vc.addActive k v true).2.get k).isSome := by
  unfold Collection.addActive Collection.get
  cases hov : lookupVarAssoc vc.overriding k with
  | some ov => simp [hov]
  | none => simp [hov, lookupVarAssoc_setVarAssoc]

/-- `addActive` with `overrideOK = true` keeps every visible name visible. -/
theorem get_addActive_true_mono (vc : Collection) (k k' : String) (v : Variable)
    (h : (vc.get k).isSome) : ((vc.addActive k' v true).2.get k).isSome := by
  unfold Collection.addActive
  unfold Collection.get at h ⊢
  cases hov : lookupVarAssoc vc.overriding k' with
  | some ov =>
      simp only []
      cases hov2 : lookupVarAssoc vc.overriding k with
      | some w => simp [hov2]
      | none =>
          rw [hov2] at h
          simp [hov2, lookupVarAssoc_setVarAssoc]
          by_cases he : k = k' <;> simp [he, h]
  | none =>
      simp only []
      cases hov2 : lookupVarAssoc vc.overriding k with
      | some w => simp [hov2]
      | none =>
          rw [hov2] at h
          simp [hov2, lookupVarAssoc_setVarAssoc]
          by_cases he : k = k' <;> simp [he, h]

/-- Helper: visibility of a name survives the whole env-merge fold. -/
theorem envFold_get_mono (envs : List String) :
    ∀ (vc : Collection) (k : String), (vc.get k).isSome →
      ((envs.foldl (fun vc kv =>
          (vc.addActive (parseKeyValue kv).1
            (Variable.constantEnv (parseKeyValue kv).2) true).2) vc).get k).isSome := by
  induction envs with
  | nil => intro vc k h; exact h
  | cons kv0 rest ih =>
      intro vc k h
      rw [List.foldl_cons]
      exact ih _ k (get_addActive_true_mono vc k _ _ h)

/-- After folding the env merge of `fromTarget`, every merged env key is
visible in the collection. -/
theorem envFold_get_isSome (envs : List String) :
    ∀ (vc : Collection) (kv : String), kv ∈ envs →
      ((envs.foldl (fun vc kv =>
          (vc.addActive (parseKeyValue kv).1
            (Variable.constantEnv (parseKeyValue kv).2) true).2) vc).get
        (parseKeyValue kv).1).isSome := by
  induction envs with
  | nil => intro vc kv h; cases h
  | cons kv0 rest ih =>
      intro vc kv h
      rw [List.foldl_cons]
      rcases List.mem_cons.mp h with h' | h'
      · subst h'
        exact envFold_get_mono rest _ _ (get_addActive_true_isSome vc _ _)
      · exact ih _ kv h'

/-- The env-merge fold of `fromTarget` never touches the overriding tier. -/
theorem envFold_overriding (envs : List String) :
    ∀ (vc : Collection),
      ((envs.foldl (fun vc kv =>
          (vc.addActive (parseKeyValue kv).1
            (Variable.constantEnv (parseKeyValue kv).2) true).2) vc)).overriding =
        vc.overriding := by
  induction envs with
  | nil => intro vc; rfl
  | cons kv0 rest ih =>
      intro vc
      rw [List.foldl_cons, addActive_true_collection, ih]

/-- The env-merge fold of `fromTarget` binds each merged key in the active
tier to the `constantEnv` of its last env value, and leaves every other
key's active binding alone. -/
theorem envFold_active (envs : List String) :
    ∀ (vc : Collection) (k : String),
      lookupVarAssoc ((envs.foldl (fun vc kv =>
          (vc.addActive (parseKeyValue kv).1
            (Variable.constantEnv (parseKeyValue kv).2) true).2) vc)).active k =
        match lastEnvBinding envs k with
        | some v => some (Variable.constantEnv v)
        | none => lookupVarAssoc vc.active k := by
  induction envs with
  | nil => intro vc k; rfl
  | cons kv0 rest ih =>
      intro vc k
      rw [List.foldl_cons, addActive_true_collection, ih]
      simp only [lastEnvBinding]
      cases hl : lastEnvBinding rest k with
      | some v => rfl
      | none =>
          show lookupVarAssoc
              (setVarAssoc vc.active (parseKeyValue kv0).1
                (Variable.constantEnv (parseKeyValue kv0).2)) k = _
          rw [lookupVarAssoc_setVarAssoc]
          by_cases hk : k = (parseKeyValue kv0).1
          · rw [if_pos hk]
            have hbeq : ((parseKeyValue kv0).1 == k) = true := by
              simp [beq_iff_eq, hk.symm]
            simp [hbeq]
          · rw [if_neg hk]
            have hbeq : ((parseKeyValue kv0).1 == k) = false := by
              simp [beq_iff_eq]
              intro he
              exact hk he.symm
            simp [hbeq]

/-- The non-constant build-arg processor touches only the side-effects
state and the arg counter. -/
theorem pnc_frame {c : Converter} {nm expr : String}
    {r : (LLBState × TargetInput × Nat) × Converter}
    (h : processNonConstantBuildArg c nm expr = .ok r) :
    r.2.varCollection = c.varCollection ∧ r.2.directDeps = c.directDeps ∧
    r.2.mtsFinal.sideEffectsImage = c.mtsFinal.sideEffectsImage ∧
    r.2.mtsFinal.localDirs = c.mtsFinal.localDirs ∧
    r.2.mtsFinal.saveImages = c.mtsFinal.saveImages ∧
    r.2.mtsFinal.saveLocals = c.mtsFinal.saveLocals ∧
    r.2.mtsFinal.separateArtifactsState = c.mtsFinal.separateArtifactsState := by
  unfold processNonConstantBuildArg at h
  simp only [internalRun_no_secrets_nonpush] at h
  cases h
  exact ⟨rfl, rfl, rfl, rfl, rfl, rfl, rfl⟩

/-- Parsing build args touches the converter only through the non-constant
processor: collection-independent converter fields are preserved. -/
theorem withParseBuildArgs_converter_frame {args : List String} :
    ∀ {vc : Collection} {c : Converter} {res : Collection × Converter},
      withParseBuildArgsGo vc c args = .ok res →
      res.2.varCollection = c.varCollection ∧ res.2.directDeps = c.directDeps ∧
      res.2.mtsFinal.sideEffectsImage = c.mtsFinal.sideEffectsImage ∧
      res.2.mtsFinal.localDirs = c.mtsFinal.localDirs ∧
      res.2.mtsFinal.saveImages = c.mtsFinal.saveImages ∧
      res.2.mtsFinal.saveLocals = c.mtsFinal.saveLocals ∧
      res.2.mtsFinal.separateArtifactsState = c.mtsFinal.separateArtifactsState := by
  induction args with
  | nil =>
      intro vc c res h
      cases h
      exact ⟨rfl, rfl, rfl, rfl, rfl, rfl, rfl⟩
  | cons arg rest ih =>
      intro vc c res h
      simp only [withParseBuildArgsGo] at h
      cases hp : parseOneBuildArg vc c arg with
      | error e => rw [hp] at h; cases h
      | ok vcc =>
          rw [hp] at h
          have hstep : vcc.2.varCollection = c.varCollection ∧
              vcc.2.directDeps = c.directDeps ∧
              vcc.2.mtsFinal.sideEffectsImage = c.mtsFinal.sideEffectsImage ∧
              vcc.2.mtsFinal.localDirs = c.mtsFinal.localDirs ∧
              vcc.2.mtsFinal.saveImages = c.mtsFinal.saveImages ∧
              vcc.2.mtsFinal.saveLocals = c.mtsFinal.saveLocals ∧
              vcc.2.mtsFinal.separateArtifactsState = c.mtsFinal.separateArtifactsState := by
            unfold parseOneBuildArg at hp
            by_cases hc : (strSplitOn arg '=').length ≥ 2
            · rw [if_pos hc] at hp
              cases hp
              exact ⟨rfl, rfl, rfl, rfl, rfl, rfl, rfl⟩
            · rw [if_neg hc] at hp
              cases hg : vc.get arg with
              | some existing =>
                  rw [hg] at hp
                  cases hp
                  exact ⟨rfl, rfl, rfl, rfl, rfl, rfl, rfl⟩
              | none =>
                  rw [hg] at hp
                  cases hq : processNonConstantBuildArg c arg arg with
                  | error e => rw [hq] at hp; cases hp
                  | ok r =>
                      rw [hq] at hp
                      cases hp
                      exact pnc_frame hq
          obtain ⟨s1, s2, s3, s4, s5, s6, s7⟩ := hstep
          obtain ⟨t1, t2, t3, t4, t5, t6, t7⟩ := ih h
          exact ⟨t1.trans s1, t2.trans s2, t3.trans s3, t4.trans s4, t5.trans s5,
            t6.trans s6, t7.trans s7⟩

/-- When every build arg is a constant `K=V`, parsing build args leaves the
converter entirely unchanged. -/
theorem withParseBuildArgs_all_constant {args : List String} :
    ∀ {vc : Collection} {c : Converter} {res : Collection × Converter},
      (∀ arg ∈ args, (strSplitOn arg '=').length ≥ 2) →
      withParseBuildArgsGo vc c args = .ok res → res.2 = c := by
  induction args with
  | nil =>
      intro vc c res _ h
      cases h
      rfl
  | cons arg rest ih =>
      intro vc c res hall h
      simp only [withParseBuildArgsGo] at h
      cases hp : parseOneBuildArg vc c arg with
      | error e => rw [hp] at h; cases h
      | ok vcc =>
          rw [hp] at h
          have hc := hall arg (List.mem_cons_self arg rest)
          unfold parseOneBuildArg at hp
          rw [if_pos hc] at hp
          cases hp
          exact ih (fun a ha => hall a (List.mem_cons_of_mem arg ha)) h

/-- When no build argument invokes the non-constant processor — each is a
constant `K=V` or a bare name already bound in the collection as parsed so
far — parsing build args leaves the converter entirely unchanged. -/
theorem withParseBuildArgs_no_nonconstant {args : List String} :
    ∀ {vc : Collection} {c : Converter} {res : Collection × Converter},
      bareArgsBound vc args = true →
      withParseBuildArgsGo vc c args = .ok res → res.2 = c := by
  induction args with
  | nil =>
      intro vc c res _ h
      cases h
      rfl
  | cons arg rest ih =>
      intro vc c res hbb h
      simp only [withParseBuildArgsGo] at h
      simp only [bareArgsBound] at hbb
      by_cases hc : (strSplitOn arg '=').length ≥ 2
      · rw [if_pos hc] at hbb
        cases hp : parseOneBuildArg vc c arg with
        | error e => rw [hp] at h; cases h
        | ok vcc =>
            rw [hp] at h
            unfold parseOneBuildArg at hp
            rw [if_pos hc] at hp
            cases hp
            exact ih hbb h
      · rw [if_neg hc] at hbb
        cases hg : vc.get arg with
        | some existing =>
            simp only [hg] at hbb
            cases hp : parseOneBuildArg vc c arg with
            | error e => rw [hp] at h; cases h
            | ok vcc =>
                rw [hp] at h
                unfold parseOneBuildArg at hp
                rw [if_neg hc] at hp
                simp only [hg] at hp
                cases hp
                exact ih hbb h
        | none =>
            simp only [hg] at hbb
            exact Bool.noConfusion hbb

/-- C4 (amended): for every `FromTarget` invocation whose target parses and
whose recursive build succeeds: if the resulting STS has no `SaveImages`
entry, `FromTarget` fails with the missing-SAVE-IMAGE error; the caller's
`SideEffectsImage` is unchanged on that failure, and the `SideEffectsState`
too provided no build argument invokes the non-constant build-arg
processor (each is a constant `K=V` or a bare name already bound in the
callee base collection as parsed so far); if there is a last saved image,
its state and cloned image config become the caller's new
`SideEffectsState`/`SideEffectsImage`, the dep's `LocalDirs` are unioned
into the caller's, and the saved image's env entries are merged into the
caller's active bindings: the overriding tier is untouched, every merged
env key is bound in the active tier to the `constantEnv` of its last env
value, and every other key's active binding is unchanged. -/
theorem fromTarget_behavior (c : Converter) (targetName : String)
    (buildArgs : List String) (dep : MultiTargetStates) (t0 rt : Target)
    (bres : MultiTargetStates × Converter)
    (h1 : parseTarget targetName = .ok t0)
    (hrt : parseTarget t0.toString = .ok rt)
    (hb : Build c t0.toString buildArgs dep = .ok bres) :
    (dep.finalStates.saveImages = [] →
      fromTarget c targetName buildArgs dep =
        .error ("FROM statement: referenced target " ++ t0.toString ++
          " does not contain a SAVE IMAGE statement", bres.2) ∧
      bres.2.mtsFinal.sideEffectsImage = c.mtsFinal.sideEffectsImage ∧
      (bareArgsBound
          (if rt.isExternal then Collection.newCollection else c.varCollection)
          buildArgs = true →
        bres.2.mtsFinal.sideEffectsState = c.mtsFinal.sideEffectsState)) ∧
    (∀ si, dep.finalStates.lastSaveImage = some si →
      ∃ c2, fromTarget c targetName buildArgs dep = .ok c2 ∧
        c2.mtsFinal.sideEffectsState = si.state ∧
        c2.mtsFinal.sideEffectsImage = si.image.clone ∧
        c2.mtsFinal.localDirs =
          unionAssoc bres.2.mtsFinal.localDirs dep.finalStates.localDirs ∧
        ((dep.finalStates.localDirs.map Prod.fst).Nodup →
          ∀ k v, lookupAssoc dep.finalStates.localDirs k = some v →
            lookupAssoc c2.mtsFinal.localDirs k = some v) ∧
        c2.varCollection.overriding = c.varCollection.overriding ∧
        (∀ k v, lastEnvBinding si.image.config.env k = some v →
          lookupVarAssoc c2.varCollection.active k =
            some (Variable.constantEnv v)) ∧
        (∀ k, lastEnvBinding si.image.config.env k = none →
          lookupVarAssoc c2.varCollection.active k =
            lookupVarAssoc c.varCollection.active k)) := by
  have hb0 := hb
  unfold Build at hb
  simp only [hrt] at hb
  cases hbn : buildNewVarCollection c rt buildArgs with
  | error e => simp [hbn] at hb
  | ok res2 =>
      simp only [hbn] at hb
      have hbres : bres =
          (dep, { res2.2 with directDeps := res2.2.directDeps ++ [dep.finalStates] }) := by
        cases hb; rfl
      subst hbres
      unfold buildNewVarCollection at hbn
      have hfr := withParseBuildArgs_converter_frame hbn
      constructor
      · intro hsi
        refine ⟨?_, ?_, ?_⟩
        · unfold fromTarget
          simp only [h1, hb0, SingleTargetStates.lastSaveImage, hsi, List.getLast?]
          by_cases hli : t0.isLocalInternal = true
          · simp [hli]
            rfl
          · simp [hli]
        · simpa using hfr.2.2.1
        · intro hbb
          have hres2 := withParseBuildArgs_no_nonconstant hbb hbn
          simp [hres2]
      · intro si hsi
        unfold fromTarget
        simp only [h1, hb0, hsi]
        refine ⟨_, rfl, rfl, rfl, rfl, ?_, ?_, ?_, ?_⟩
        · intro hnd k v hkv
          exact lookupAssoc_unionAssoc_mem _ _ k v hnd hkv
        · exact (envFold_overriding si.image.config.env res2.2.varCollection).trans
            (congrArg Collection.overriding hfr.1)
        · intro k v hk
          have ha := envFold_active si.image.config.env res2.2.varCollection k
          simp only [hk] at ha
          exact ha
        · intro k hk
          have ha := envFold_active si.image.config.env res2.2.varCollection k
          simp only [hk] at ha
          exact ha.trans (congrArg (fun vc => lookupVarAssoc vc.active k) hfr.1)

/-- A concrete caller converter with an empty collection. -/
def cexConverter : Converter :=
  { mtsFinal :=
      { target := witnessTarget
        targetInput := { targetCanonical := "+t", buildArgs := [] }
        sideEffectsState := LLBState.scratch targetPlatform
        sideEffectsImage := Image.newImage
        artifactsState := LLBState.scratch targetPlatform
        separateArtifactsState := []
        saveLocals := []
        saveImages := []
        runPush := { initialized := false, state := LLBState.scratch targetPlatform,
                     commandStrs := [] }
        localDirs := []
        ongoing := true
        salt := "1" }
    directDeps := []
    buildContext := LLBState.scratch targetPlatform
    cacheContext := makeCacheContext witnessTarget
    varCollection := Collection.newCollection
    nextArgIndex := 0 }

/-- A concrete dep STS (no saved image) with one local dir. -/
def cexDepSts : SingleTargetStates :=
  { target := witnessTarget
    targetInput := { targetCanonical := "+lib", buildArgs := [] }
    sideEffectsState := LLBState.imageRef "alpine"
    sideEffectsImage := Image.newImage
    artifactsState := LLBState.scratch targetPlatform
    separateArtifactsState := []
    saveLocals := []
    saveImages := []
    runPush := { initialized := false, state := LLBState.scratch targetPlatform,
                 commandStrs := [] }
    localDirs := [("ctx", "/host/dir")]
    ongoing := false
    salt := "2" }

/-- A dep MTS with no saved image. -/
def cexDepMts : MultiTargetStates :=
  { finalStates := cexDepSts }

/-- A concrete saved-image entry. -/
def witSaveImage : SaveImageEntry :=
  { state := LLBState.imageRef "alpine"
    image := { config := { Image.newImage.config with env := ["PATH=/usr/local/bin"] } }
    dockerTag := "lib:latest"
    push := false }

/-- A dep MTS with one saved image. -/
def witDepMts : MultiTargetStates :=
  { finalStates := { cexDepSts with saveImages := [witSaveImage] } }

/-- C4 counterexample: a `FromTarget` invocation whose dep has no saved
image and whose build args contain a bare non-constant argument fails with
the missing-SAVE-IMAGE error, yet the caller's `SideEffectsState` HAS been
mutated (by the non-constant build-arg side effects), contradicting the
claim that the state is unchanged on this failure. -/
theorem fromTarget_failure_mutates_state :
    ∃ msg c', fromTarget cexConverter "+lib" ["DYN"] cexDepMts = .error (msg, c') ∧
      c'.mtsFinal.sideEffectsState ≠ cexConverter.mtsFinal.sideEffectsState := by
  refine ⟨_, _, rfl, ?_⟩
  intro h
  exact LLBState.noConfusion h

/-- Witness for `fromTarget_behavior` at a concrete converter and dep. -/
theorem fromTarget_behavior_witness :
    ∃ bres c2,
      parseTarget "+lib" = .ok
        { projectPath := "", name := "lib", tag := "", localPath := "" } ∧
      Build cexConverter
        (Target.toString { projectPath := "", name := "lib", tag := "", localPath := "" })
        [] witDepMts = .ok bres ∧
      witDepMts.finalStates.lastSaveImage = some witSaveImage ∧
      fromTarget cexConverter "+lib" [] witDepMts = .ok c2 ∧
      c2.mtsFinal.sideEffectsState = witSaveImage.state := by
  obtain ⟨c2, hc2, hse, -⟩ :=
    (fromTarget_behavior cexConverter "+lib" [] witDepMts
      { projectPath := "", name := "lib", tag := "", localPath := "" }
      { projectPath := "", name := "lib", tag := "", localPath := "" } _ rfl rfl rfl).2
      witSaveImage rfl
  exact ⟨_, c2, rfl, rfl, rfl, hc2, hse⟩

/-- A caller collection with one overriding variable, for witnesses. -/
def witnessCallerCollection : Collection :=
  { active := [], overriding := [("GLOBAL", Variable.constant "x")] }

/-- A caller converter carrying an overriding variable. -/
def witnessCaller : Converter :=
  NewConverter witnessTarget [] (LLBState.scratch targetPlatform) "7"
    { varCollection := witnessCallerCollection }

/-- An external target (different project). -/
def witnessExtTarget : Target :=
  { projectPath := "github.com/other/proj", name := "t", tag := "", localPath := "" }

/-- Witness for `build_external_isolation` at a concrete caller with an
overriding `GLOBAL` and an external target. -/
theorem build_external_isolation_witness :
    ∃ res, buildNewVarCollection witnessCaller witnessExtTarget ["FOO=1"] = .ok res ∧
      (∀ k, k ∈ ((NewConverter witnessTarget [] (LLBState.scratch targetPlatform) "9"
            { varCollection := res.1 }).mtsFinal.targetInput.buildArgs.map
            BuildArgInput.name) →
        k ∈ (["FOO=1"].map argKey)) := by
  refine ⟨_, rfl, ?_⟩
  exact (build_external_isolation witnessCaller witnessExtTarget witnessTarget ["FOO=1"] _
    [] (LLBState.scratch targetPlatform) "9" rfl).1 rfl

/-! ## Classical FROM and dispatch (`From`, `fromClassical`,
`internalFromClassical`, `applyFromImage`) -/

/-- `applyFromImage` from the source (lines 868-896): reset env vars, replay
the image env into the state and collection, and apply working dir and user
when present. (The nil-map initialization of the source is a no-op here:
assoc lists start initialized.) -/
def Converter.applyFromImage (c : Converter) (state0 : LLBState) (img : Image) :
    LLBState × Image × Collection :=
  let acc := img.config.env.foldl
    (fun (acc : LLBState × Collection) envVar =>
      (LLBState.addEnv acc.1 (parseKeyValue envVar).1 (parseKeyValue envVar).2,
       (acc.2.addActive (parseKeyValue envVar).1
         (Variable.constantEnv (parseKeyValue envVar).2) true).2))
    (state0, c.varCollection.withResetEnvVars)
  let state1 :=
    if img.config.workingDir != "" then LLBState.dirSt acc.1 img.config.workingDir else acc.1
  let state2 :=
    if img.config.userName != "" then LLBState.userSt state1 img.config.userName else state1
  (state2, img, acc.2)

/-- `internalFromClassical` from the source (lines 828-866): `scratch` gives
an empty state, fresh image and env-reset collection; otherwise the external
reference parse, registry config resolution and JSON decode (carried by
`metaResolve` as the reference string and image they returned) feed
`applyFromImage`. -/
def internalFromClassical (c : Converter) (imageName : String)
    (metaResolve : Except String (String × Image)) :
    Except String (LLBState × Image × Collection) :=
  if imageName == "scratch" then
    .ok (LLBState.scratch targetPlatform, Image.newImage, c.varCollection.withResetEnvVars)
  else
    match metaResolve with
    | .error e => .error e
    | .ok ri => .ok (c.applyFromImage (LLBState.imageRef ri.1) ri.2)

/-- `fromClassical` from the source (lines 108-119). -/
def fromClassical (c : Converter) (imageName : String)
    (metaResolve : Except String (String × Image)) : Except (String × Converter) Converter :=
  match internalFromClassical c imageName metaResolve with
  | .error e => .error (e, c)
  | .ok res =>
      let newFinal := { c.mtsFinal with sideEffectsState := res.1, sideEffectsImage := res.2.1 }
      .ok { c with mtsFinal := newFinal, varCollection := res.2.2 }

/-- `From` from the source (lines 95-106): a reference containing `+`
delegates to `fromTarget`; otherwise classical FROM, which rejects build
args. `depResult` and `metaResolve` carry the collaborator outcomes for the
two paths. -/
def FromCmd (c : Converter) (imageName : String) (buildArgs : List String)
    (depResult : MultiTargetStates) (metaResolve : Except String (String × Image)) :
    Except (String × Converter) Converter :=
  if strContainsChar imageName '+' then
    fromTarget c imageName buildArgs depResult
  else
    if buildArgs.length != 0 then
      .error ("--build-arg not supported in non-target FROM", c)
    else
      fromClassical c imageName metaResolve

/-- C9: `From` with a `+` in the reference delegates to `fromTarget`
regardless of build args; classical `From` (no `+`) with non-empty build
args fails with the invalid-arguments error carrying the converter
unchanged; classical `From` with empty build args delegates to the
classical path. -/
theorem from_dispatch (c : Converter) (imageName : String) (buildArgs : List String)
    (dep : MultiTargetStates) (mr : Except String (String × Image)) :
    (strContainsChar imageName '+' = true →
      FromCmd c imageName buildArgs dep mr = fromTarget c imageName buildArgs dep) ∧
    (strContainsChar imageName '+' = false → buildArgs ≠ [] →
      FromCmd c imageName buildArgs dep mr =
        .error ("--build-arg not supported in non-target FROM", c)) ∧
    (strContainsChar imageName '+' = false → buildArgs = [] →
      FromCmd c imageName buildArgs dep mr = fromClassical c imageName mr) := by
  refine ⟨?_, ?_, ?_⟩
  · intro h
    simp [FromCmd, h]
  · intro h hargs
    have hlen : buildArgs.length ≠ 0 := by
      intro hz
      exact hargs (List.length_eq_zero.mp hz)
    simp [FromCmd, h, hlen]
  · intro h hargs
    subst hargs
    simp [FromCmd, h]

/-- Witness for `from_dispatch`: classical FROM with build args fails. -/
theorem from_dispatch_witness :
    strContainsChar "alpine" '+' = false ∧
    FromCmd cexConverter "alpine" ["A=1"] cexDepMts (.error "e") =
      .error ("--build-arg not supported in non-target FROM", cexConverter) :=
  ⟨rfl, (from_dispatch cexConverter "alpine" ["A=1"] cexDepMts (.error "e")).2.1 rfl
    (by decide)⟩

/-! ## COPY artifact (`CopyArtifact`) -/

/-- `CopyArtifact` from the source (lines 259-292): parse the artifact,
build its target recursively, fix up the local path for local-internal
targets, then copy the artifact path out of the dep's `ArtifactsState` into
the caller's `SideEffectsState`. Nothing else on the caller's STS is
touched — in particular `LocalDirs` is not. -/
def CopyArtifact (c : Converter) (artifactName dest : String) (buildArgs : List String)
    (isDir : Bool) (chown : String) (depResult : MultiTargetStates) :
    Except (String × Converter) Converter :=
  match parseArtifact artifactName with
  | .error e => .error ("parse artifact name " ++ artifactName ++ ": " ++ e, c)
  | .ok artifact0 =>
      match Build c artifact0.target.toString buildArgs depResult with
      | .error e => .error ("apply build " ++ artifact0.target.toString ++ ": " ++ e.1, e.2)
      | .ok bres =>
          let artifact :=
            if artifact0.target.isLocalInternal then
              { artifact0 with target :=
                  { artifact0.target with localPath := c.mtsFinal.target.localPath } }
            else artifact0
          let c1 := bres.2
          let relevantDepState := bres.1.finalStates
          let newSE := LLBState.copySt relevantDepState.artifactsState [artifact.artifact]
            c1.mtsFinal.sideEffectsState dest true isDir chown
            (c.vertexPfx ++ "COPY " ++ strIf isDir "--dir " ++
              joinWrap buildArgs "(" " " ") " ++ artifact.toString ++ " " ++ dest)
          .ok { c1 with mtsFinal := { c1.mtsFinal with sideEffectsState := newSE } }

/-- C6 counterexample: a concrete `CopyArtifact` of `+lib/x` into a caller
whose `LocalDirs` is empty succeeds, and the dep's local directory entry
`ctx` is NOT present in the caller's `LocalDirs` afterwards: the caller's
`LocalDirs` is not a superset of the dep's, because `CopyArtifact` performs
no merge. -/
theorem copyArtifact_no_localdirs_merge :
    ∃ c2, CopyArtifact cexConverter "+lib/x" "/x" [] false "" cexDepMts = .ok c2 ∧
      lookupAssoc cexDepMts.finalStates.localDirs "ctx" = some "/host/dir" ∧
      lookupAssoc c2.mtsFinal.localDirs "ctx" = none := by
  exact ⟨_, rfl, rfl, rfl⟩

/-- C6 (amended): after `CopyArtifact`, the caller's `LocalDirs` is exactly
what it was before (`CopyArtifact` does not merge the dep's local
directories — that union happens in `fromTarget`); the copy itself is
recorded from the dep's `ArtifactsState` into the caller's
`SideEffectsState`. -/
theorem copyArtifact_behavior (c : Converter) (artifactName dest : String)
    (buildArgs : List String) (isDir : Bool) (chown : String) (dep : MultiTargetStates)
    (a0 : Artifact) (bres : MultiTargetStates × Converter)
    (h1 : parseArtifact artifactName = .ok a0)
    (hb : Build c a0.target.toString buildArgs dep = .ok bres) :
    ∃ c2, CopyArtifact c artifactName dest buildArgs isDir chown dep = .ok c2 ∧
      c2.mtsFinal.localDirs = bres.2.mtsFinal.localDirs ∧
      bres.2.mtsFinal.localDirs = c.mtsFinal.localDirs ∧
      (∃ label, c2.mtsFinal.sideEffectsState =
        LLBState.copySt dep.finalStates.artifactsState [a0.artifact]
          bres.2.mtsFinal.sideEffectsState dest true isDir chown label) := by
  have hb0 := hb
  unfold Build at hb
  cases hpt : parseTarget a0.target.toString with
  | error e => simp [hpt] at hb
  | ok rt =>
      simp only [hpt] at hb
      cases hbn : buildNewVarCollection c rt buildArgs with
      | error e => simp [hbn] at hb
      | ok res2 =>
          simp only [hbn] at hb
          have hbres : bres =
              (dep, { res2.2 with directDeps := res2.2.directDeps ++ [dep.finalStates] }) := by
            cases hb; rfl
          subst hbres
          unfold buildNewVarCollection at hbn
          have hfr := withParseBuildArgs_converter_frame hbn
          unfold CopyArtifact
          simp only [h1, hb0]
          refine ⟨_, rfl, rfl, ?_, ?_⟩
          · simpa using hfr.2.2.2.1
          · by_cases hli : a0.target.isLocalInternal = true
            · simp only [hli, if_true]
              exact ⟨_, rfl⟩
            · simp only [hli, Bool.false_eq_true, if_false]
              exact ⟨_, rfl⟩

/-- Witness for `copyArtifact_behavior` at a concrete caller and dep. -/
theorem copyArtifact_behavior_witness :
    ∃ a0 c2,
      parseArtifact "+lib/x" = .ok a0 ∧
      CopyArtifact cexConverter "+lib/x" "/x" [] false "" cexDepMts = .ok c2 ∧
      c2.mtsFinal.localDirs = cexConverter.mtsFinal.localDirs := by
  obtain ⟨c2, hc2, h1, h2, -⟩ :=
    copyArtifact_behavior cexConverter "+lib/x" "/x" [] false "" cexDepMts
      { target := { projectPath := "", name := "lib", tag := "", localPath := "" },
        artifact := "x" } _ rfl rfl
  exact ⟨_, c2, rfl, hc2, h1.trans h2⟩

/-! ## Finalize (`FinalizeStates`, `withDependency`) -/

/-- `withDependency` from the source (lines 951-957): an artificial
dependency edge; the base state's content is unchanged. -/
def withDependency (state : LLBState) (target : Target) (depState : LLBState)
    (depTarget : Target) : LLBState :=
  LLBState.withDep state depState
    ("[internal] create artificial dependency: " ++ target.toString ++ " depends on " ++
      depTarget.toString)

/-- `FinalizeStates` from the source (lines 666-678): install an artificial
dependency from the final side-effects state onto every direct dep's
side-effects state, and clear `Ongoing`. -/
def FinalizeStates (c : Converter) : Converter :=
  let finalSE := c.directDeps.foldl
    (fun s depStates =>
      withDependency s c.mtsFinal.target depStates.sideEffectsState depStates.target)
    c.mtsFinal.sideEffectsState
  { c with mtsFinal := { c.mtsFinal with sideEffectsState := finalSE, ongoing := false } }

/-- The artificial-dependency parents wrapped around a state. -/
def depParents : LLBState → List LLBState
  | .withDep base dep _ => dep :: depParents base
  | _ => []

/-- Remove one outer dependency wrapper. -/
def peelDep : LLBState → LLBState
  | .withDep base _ _ => base
  | s => s

/-- Remove `n` outer dependency wrappers. -/
def peelDeps : Nat → LLBState → LLBState
  | 0, s => s
  | n + 1, s => peelDeps n (peelDep s)

/-- The dependency parents of the finalize fold are the deps' states. -/
theorem depParents_foldl (tgt : Target) (deps : List SingleTargetStates) :
    ∀ (s : LLBState),
      depParents (deps.foldl (fun s d => withDependency s tgt d.sideEffectsState d.target) s) =
        (deps.map (fun d => d.sideEffectsState)).reverse ++ depParents s := by
  induction deps with
  | nil => intro s; simp
  | cons d rest ih =>
      intro s
      rw [List.foldl_cons, ih]
      simp [withDependency, depParents, List.append_assoc]

/-- Peeling as many wrappers as the fold added recovers the base state. -/
theorem peelDeps_foldl (tgt : Target) (deps : List SingleTargetStates) :
    ∀ (k : Nat) (s : LLBState),
      peelDeps (deps.length + k)
        (deps.foldl (fun s d => withDependency s tgt d.sideEffectsState d.target) s) =
      peelDeps k s := by
  induction deps with
  | nil => intro k s; simp
  | cons d rest ih =>
      intro k s
      rw [List.foldl_cons]
      have : (d :: rest).length + k = rest.length + (k + 1) := by
        simp [List.length_cons]
        omega
      rw [this, ih (k + 1)]
      rfl

/-- C7: after `FinalizeStates`, `Ongoing` is false, every direct dep's
side-effects state appears as an artificial-dependency parent of the final
`SideEffectsState`, and peeling the added dependency wrappers recovers the
pre-finalize state unchanged. -/
theorem finalize_states_spec (c : Converter) :
    (FinalizeStates c).mtsFinal.ongoing = false ∧
    (∀ d ∈ c.directDeps,
      d.sideEffectsState ∈ depParents (FinalizeStates c).mtsFinal.sideEffectsState) ∧
    peelDeps c.directDeps.length (FinalizeStates c).mtsFinal.sideEffectsState =
      c.mtsFinal.sideEffectsState := by
  refine ⟨rfl, ?_, ?_⟩
  · intro d hd
    show d.sideEffectsState ∈ depParents (c.directDeps.foldl _ c.mtsFinal.sideEffectsState)
    rw [depParents_foldl]
    apply List.mem_append_left
    rw [List.mem_reverse]
    exact List.mem_map_of_mem _ hd
  · show peelDeps c.directDeps.length (c.directDeps.foldl _ c.mtsFinal.sideEffectsState) = _
    have h := peelDeps_foldl c.mtsFinal.target c.directDeps 0 c.mtsFinal.sideEffectsState
    simpa using h

/-- A converter with one direct dep, for the finalize witness. -/
def finStartConverter : Converter :=
  { cexConverter with directDeps := [cexDepSts] }

/-- Witness for `finalize_states_spec` at a concrete converter. -/
theorem finalize_states_witness :
    (FinalizeStates finStartConverter).mtsFinal.ongoing = false ∧
    cexDepSts.sideEffectsState ∈
      depParents (FinalizeStates finStartConverter).mtsFinal.sideEffectsState :=
  ⟨(finalize_states_spec finStartConverter).1,
   (finalize_states_spec finStartConverter).2.1 cexDepSts (List.mem_singleton_self _)⟩

/-! ## The remaining command operations -/

/-- Go `strings.HasSuffix`. -/
def strEndsWith (s sfx : String) : Bool :=
  sfx.data.isSuffixOf s.data

/-- Modelled from the spec (Go `path.Join` without `..` cleaning): join two
path segments with a single slash. -/
def pathJoin (a b : String) : String :=
  if a == "" then b
  else if b == "" then a
  else if strEndsWith a "/" then a ++ b
  else a ++ "/" ++ b

/-- Modelled from the spec (Go `path.Base`): the last nonempty path
component. -/
def pathBase (p : String) : String :=
  match ((strSplitOn p '/').filter (fun s => s != "")).getLast? with
  | some l => l
  | none => if p == "" then "." else "/"

/-- Modelled from the spec: `splitWildcards` splits a path at its first
wildcard-bearing component: everything before it, and the rest (empty when
there is no wildcard). -/
def splitWildcards (p : String) : String × String :=
  if strContainsChar p '*' then
    let parts := strSplitOn p '/'
    let idx := parts.findIdx (fun s => strContainsChar s '*')
    (String.intercalate "/" (parts.take idx), String.intercalate "/" (parts.drop idx))
  else (p, "")

/-- Modelled from the spec: `withShell` wraps args in `sh -c` when
requested (`shell.go` is outside the core source). -/
def withShell (args : List String) (isWithShell : Bool) : List String :=
  if isWithShell then ["/bin/sh", "-c", String.intercalate " " args] else args

/-- Modelled from the spec: `variables.AddEnv` replaces an existing `K=...`
entry or appends `K=V`. -/
def addEnvList (env : List String) (k v : String) : List String :=
  if env.any (fun e => (parseKeyValue e).1 == k) then
    env.map (fun e => if (parseKeyValue e).1 == k then k ++ "=" ++ v else e)
  else env ++ [k ++ "=" ++ v]

/-- `SaveArtifact` from the source (lines 363-411): normalize the save-to
path, split wildcards, copy into `ArtifactsState`, and, when `asLocalTo` is
non-empty, also copy into a fresh scratch state appended to
`SeparateArtifactsState` and record a `SaveLocal` entry whose index is the
new last position. `absSaveFrom` stands for the result of the external
`llbutil.Abs` solve, used only for the empty/`.`/trailing-slash forms. -/
def SaveArtifact (c : Converter) (saveFrom saveTo saveAsLocalTo : String)
    (absSaveFrom : String) : Converter :=
  let saveToAdjusted :=
    if saveTo == "" || saveTo == "." || strEndsWith saveTo "/" then
      pathJoin saveTo (pathBase (pathJoin "." absSaveFrom))
    else saveTo
  let sw := splitWildcards saveToAdjusted
  let saveToAdjusted2 := if sw.2 == "" then saveToAdjusted else sw.1 ++ "/"
  let artifactPath := if sw.2 == "" then saveToAdjusted else pathJoin (sw.1 ++ "/") sw.2
  let artifact : Artifact := { target := c.mtsFinal.target, artifact := artifactPath }
  let newArtifacts := LLBState.copySt c.mtsFinal.sideEffectsState [saveFrom]
    c.mtsFinal.artifactsState saveToAdjusted2 true true ""
    (c.vertexPfx ++ "SAVE ARTIFACT " ++ saveFrom ++ " " ++ artifact.toString)
  let c1 := { c with mtsFinal := { c.mtsFinal with artifactsState := newArtifacts } }
  if saveAsLocalTo != "" then
    let separateArtifactsState := LLBState.copySt c.mtsFinal.sideEffectsState [saveFrom]
      (LLBState.scratch targetPlatform) saveToAdjusted2 true false ""
      (c.vertexPfx ++ "SAVE ARTIFACT " ++ saveFrom ++ " " ++ artifact.toString ++
        " AS LOCAL " ++ saveAsLocalTo)
    let newSep := c1.mtsFinal.separateArtifactsState ++ [separateArtifactsState]
    let newLocals := c1.mtsFinal.saveLocals ++
      [{ destPath := saveAsLocalTo, artifactPath := artifactPath, index := newSep.length - 1 }]
    let newFinal :=
      { c1.mtsFinal with separateArtifactsState := newSep, saveLocals := newLocals }
    { c1 with mtsFinal := newFinal }
  else c1

/-- `SaveImage` from the source (lines 414-430): an empty name list becomes
one empty name; every name appends a snapshot entry. -/
def SaveImage (c : Converter) (imageNames : List String) (pushImages : Bool) : Converter :=
  let imageNames2 := if imageNames.isEmpty then [""] else imageNames
  { c with mtsFinal := { c.mtsFinal with saveImages :=
      c.mtsFinal.saveImages ++ imageNames2.map (fun imageName =>
        { state := c.mtsFinal.sideEffectsState
          image := c.mtsFinal.sideEffectsImage.clone
          dockerTag := imageName
          push := pushImages }) } }

/-- `CopyClassical` from the source (lines 295-310). -/
def CopyClassical (c : Converter) (srcs : List String) (dest : String) (isDir : Bool)
    (chown : String) : Converter :=
  let newSE := LLBState.copySt c.buildContext srcs c.mtsFinal.sideEffectsState dest true
    isDir chown
    (c.vertexPfx ++ "COPY " ++ strIf isDir "--dir " ++ String.intercalate " " srcs ++
      " " ++ dest)
  { c with mtsFinal := { c.mtsFinal with sideEffectsState := newSE } }

/-- `Workdir` from the source (lines 476-498). -/
def Workdir (c : Converter) (workdirPath : String) : Converter :=
  let se1 := LLBState.dirSt c.mtsFinal.sideEffectsState workdirPath
  let workdirAbs :=
    if strStartsWith workdirPath "/" then workdirPath
    else pathJoin (pathJoin "/" c.mtsFinal.sideEffectsImage.config.workingDir) workdirPath
  let img1 := { c.mtsFinal.sideEffectsImage with config :=
    { c.mtsFinal.sideEffectsImage.config with workingDir := workdirAbs } }
  let se2 :=
    if workdirAbs != "/" then
      LLBState.fileMkdir se1 workdirAbs 0o755 true
        (if c.mtsFinal.sideEffectsImage.config.userName != "" then
          some c.mtsFinal.sideEffectsImage.config.userName
        else none)
        (c.vertexPfx ++ "WORKDIR " ++ workdirPath)
    else se1
  { c with mtsFinal := { c.mtsFinal with sideEffectsState := se2, sideEffectsImage := img1 } }

/-- `User` from the source (lines 501-505). -/
def User (c : Converter) (user : String) : Converter :=
  let img1 := { c.mtsFinal.sideEffectsImage with config :=
    { c.mtsFinal.sideEffectsImage.config with userName := user } }
  { c with mtsFinal := { c.mtsFinal with
      sideEffectsState := LLBState.userSt c.mtsFinal.sideEffectsState user,
      sideEffectsImage := img1 } }

/-- `Cmd` from the source (lines 508-511). -/
def Cmd (c : Converter) (cmdArgs : List String) (isWithShell : Bool) : Converter :=
  let img1 := { c.mtsFinal.sideEffectsImage with config :=
    { c.mtsFinal.sideEffectsImage.config with cmd := withShell cmdArgs isWithShell } }
  { c with mtsFinal := { c.mtsFinal with sideEffectsImage := img1 } }

/-- `Entrypoint` from the source (lines 514-517). -/
def Entrypoint (c : Converter) (entrypointArgs : List String) (isWithShell : Bool) :
    Converter :=
  let img1 := { c.mtsFinal.sideEffectsImage with config :=
    { c.mtsFinal.sideEffectsImage.config with
        entrypoint := withShell entrypointArgs isWithShell } }
  { c with mtsFinal := { c.mtsFinal with sideEffectsImage := img1 } }

/-- `Expose` from the source (lines 520-525). -/
def Expose (c : Converter) (ports : List String) : Converter :=
  let img1 := { c.mtsFinal.sideEffectsImage with config :=
    { c.mtsFinal.sideEffectsImage.config with
        exposedPorts := ports.foldl setInsert c.mtsFinal.sideEffectsImage.config.exposedPorts } }
  { c with mtsFinal := { c.mtsFinal with sideEffectsImage := img1 } }

/-- `Volume` from the source (lines 528-533). -/
def Volume (c : Converter) (volumes : List String) : Converter :=
  let img1 := { c.mtsFinal.sideEffectsImage with config :=
    { c.mtsFinal.sideEffectsImage.config with
        volumes := volumes.foldl setInsert c.mtsFinal.sideEffectsImage.config.volumes } }
  { c with mtsFinal := { c.mtsFinal with sideEffectsImage := img1 } }

/-- `Env` from the source (lines 536-542). -/
def Env (c : Converter) (envKey envValue : String) : Converter :=
  let vc1 := (c.varCollection.addActive envKey (Variable.constantEnv envValue) true).2
  let img1 := { c.mtsFinal.sideEffectsImage with config :=
    { c.mtsFinal.sideEffectsImage.config with
        env := addEnvList c.mtsFinal.sideEffectsImage.config.env envKey envValue } }
  let newFinal := { c.mtsFinal with
    sideEffectsState := LLBState.addEnv c.mtsFinal.sideEffectsState envKey envValue,
    sideEffectsImage := img1 }
  { c with varCollection := vc1, mtsFinal := newFinal }

/-- `Arg` from the source (lines 545-550). -/
def Arg (c : Converter) (argKey0 defaultArgValue : String) : Converter :=
  let er := c.varCollection.addActive argKey0 (Variable.constant defaultArgValue) false
  let newTI := c.mtsFinal.targetInput.withBuildArgInput
    (er.1.buildArgInput argKey0 defaultArgValue)
  { c with varCollection := er.2, mtsFinal := { c.mtsFinal with targetInput := newTI } }

/-- `Label` from the source (lines 553-558). -/
def Label (c : Converter) (labels : List (String × String)) : Converter :=
  let img1 := { c.mtsFinal.sideEffectsImage with config :=
    { c.mtsFinal.sideEffectsImage.config with
        labels := labels.foldl (fun m kv => (m.filter (fun e => e.1 != kv.1)) ++ [kv])
          c.mtsFinal.sideEffectsImage.config.labels } }
  { c with mtsFinal := { c.mtsFinal with sideEffectsImage := img1 } }

/-- `Healthcheck` from the source (lines 641-663). -/
def Healthcheck (c : Converter) (isNone : Bool) (cmdArgs : List String)
    (interval timeoutDur startPeriod : Int) (retries : Int) : Converter :=
  let hc : HealthConfig :=
    if isNone then
      { test := ["NONE"], interval := 0, timeoutDur := 0, startPeriod := 0, retries := 0 }
    else
      { test := ["CMD-SHELL", String.intercalate " " cmdArgs]
        interval := interval, timeoutDur := timeoutDur, startPeriod := startPeriod,
        retries := retries }
  let img1 := { c.mtsFinal.sideEffectsImage with config :=
    { c.mtsFinal.sideEffectsImage.config with healthcheck := some hc } }
  { c with mtsFinal := { c.mtsFinal with sideEffectsImage := img1 } }

/-- `GitClone` from the source (lines 561-575). -/
def GitClone (c : Converter) (gitURL branch dest : String) : Converter :=
  let gitState := LLBState.gitSt gitURL branch true
    ("[" ++ c.mtsFinal.target.toString ++ "(" ++ gitURL ++ ") " ++ gitURL ++ "] " ++
      "GIT CLONE (--branch " ++ branch ++ ") " ++ gitURL)
  let newSE := LLBState.copySt gitState ["."] c.mtsFinal.sideEffectsState dest false false ""
    (c.vertexPfx ++ "COPY GIT CLONE (--branch " ++ branch ++ ") " ++ gitURL ++ " TO " ++ dest)
  { c with mtsFinal := { c.mtsFinal with sideEffectsState := newSE } }

/-- Resolver output for the host-sourced Dockerfile mode (collaborator
contract `resolver.Resolve`). -/
structure ResolveData where
  buildContext : LLBState
  buildFilePath : String
  localDirs : List (String × String)

/-- The build-context acquisition of `FromDockerfile` (source lines
166-216): artifact-sourced (build the target, solve the artifact, copy the
artifacts state into a fresh context) or host-sourced (resolve and union
local dirs). -/
def fromDockerfileContext (c : Converter) (contextPath : String)
    (buildArgs : List String) (dep : MultiTargetStates)
    (solveOut : Except String String) (resolveData : Except String ResolveData) :
    Except (String × Converter) (LLBState × Converter) :=
  if strContainsChar contextPath '+' then
    match parseArtifact contextPath with
    | .error e => .error ("parse artifact " ++ contextPath ++ ": " ++ e, c)
    | .ok contextArtifact =>
        match Build c contextArtifact.target.toString buildArgs dep with
        | .error e => .error e
        | .ok bres =>
            match solveOut with
            | .error e => .error (e, bres.2)
            | .ok _pathArtifact =>
                .ok (LLBState.copySt bres.1.finalStates.artifactsState
                  [contextArtifact.artifact] (LLBState.scratch targetPlatform) "/"
                  true true ""
                  ("[internal] FROM DOCKERFILE (copy build context from) " ++
                    joinWrap buildArgs "(" " " ") " ++ contextArtifact.toString),
                  bres.2)
  else
    match resolveData with
    | .error e => .error ("resolve build context for dockerfile: " ++ e, c)
    | .ok data =>
        let newFinal :=
          { c.mtsFinal with localDirs := unionAssoc c.mtsFinal.localDirs data.localDirs }
        .ok (data.buildContext, { c with mtsFinal := newFinal })

/-- `FromDockerfile` from the source (lines 158-256). External collaborator
outcomes are parameters: `dep` (recursive build of the context artifact),
`solveOut` (`solveArtifact` temp dir), `resolveData` (build-context
resolver, host mode), `dfRead` (the Dockerfile file read), and
`df2llbResult` (the external `Dockerfile2LLB` call together with the image
JSON round-trip). A non-empty `dfPath` is rejected up front. -/
def FromDockerfile (c : Converter) (contextPath dfPath dfTarget : String)
    (buildArgs : List String) (dep : MultiTargetStates)
    (solveOut : Except String String) (resolveData : Except String ResolveData)
    (dfRead : Except String Unit) (df2llbResult : Except String (LLBState × Image)) :
    Except (String × Converter) Converter :=
  let _ := dfTarget
  if dfPath != "" then .error ("FROM DOCKERFILE -f not yet supported", c)
  else
    match fromDockerfileContext c contextPath buildArgs dep solveOut resolveData with
    | .error e => .error e
    | .ok bc =>
        match dfRead with
        | .error e => .error ("read file: " ++ e, bc.2)
        | .ok _ =>
            match withParseBuildArgsGo bc.2.varCollection bc.2 buildArgs with
            | .error e => .error e
            | .ok pres =>
                match df2llbResult with
                | .error e => .error ("dockerfile2llb: " ++ e, pres.2)
                | .ok sti =>
                    let afi := pres.2.applyFromImage sti.1 sti.2
                    let newFinal := { pres.2.mtsFinal with
                      sideEffectsState := afi.1, sideEffectsImage := afi.2.1 }
                    .ok { pres.2 with mtsFinal := newFinal, varCollection := afi.2.2 }

/-- `solveAndLoadOld` from the source (lines 758-811): register the tarball
dir as a local context keyed by `SHA-256(tag-imageID)`, mkdir
`/var/lib/docker`, then run `docker load` with `/var/lib/docker` preserved
as a mount of the previous side-effects state. `outDir` (the temp dir) and
`buildOutcome` (docker-builder + tar-inspect, carrying the image ID) are
collaborator outcomes. -/
def solveAndLoadOld (c : Converter) (opName dockerTag outDir : String)
    (buildOutcome : Except String String) (opts : List RunOpt) :
    Except (String × Converter) Converter :=
  match buildOutcome with
  | .error e => .error (e, c)
  | .ok dockerImageID =>
      let sessionID := hexEncode (sha256 (strBytes (dockerTag ++ "-" ++ dockerImageID)))
      let tarContext := LLBState.localCtx opName opName sessionID
        ("[internal] docker tar context " ++ opName ++ " " ++ sessionID)
      let newDirs := setAssoc c.mtsFinal.localDirs opName outDir
      let se1 := LLBState.fileMkdir c.mtsFinal.sideEffectsState "/var/lib/docker" 0o755
        true none "[internal] mkdir /var/lib/docker"
      let loadOpts : List RunOpt :=
        [RunOpt.argsOpt (withDockerdWrapOld ["docker", "load", "</src/image.tar"] [] true
          false),
         RunOpt.mountState "/src" tarContext true,
         RunOpt.dirOpt "/src",
         RunOpt.securityInsecure] ++ opts
      let se2 := LLBState.runMount se1 loadOpts "/var/lib/docker" se1 "/var/lib/docker"
      let newFinal := { c.mtsFinal with sideEffectsState := se2, localDirs := newDirs }
      .ok { c with mtsFinal := newFinal }

/-- `DockerLoadOld` from the source (lines 586-605). -/
def DockerLoadOld (c : Converter) (targetName dockerTag : String)
    (buildArgs : List String) (depResult : MultiTargetStates) (outDir : String)
    (buildOutcome : Except String String) : Except (String × Converter) Converter :=
  match parseTarget targetName with
  | .error e => .error ("parse target " ++ targetName ++ ": " ++ e, c)
  | .ok depTarget =>
      match Build c depTarget.toString buildArgs depResult with
      | .error e => .error e
      | .ok bres =>
          solveAndLoadOld bres.2 depTarget.toString dockerTag outDir buildOutcome
            [RunOpt.customName (c.vertexPfx ++ "DOCKER LOAD " ++ depTarget.toString ++
              " " ++ dockerTag)]

/-- `DockerPullOld` from the source (lines 608-638): resolve the image
classically, then docker-load it via an inline MTS. -/
def DockerPullOld (c : Converter) (dockerTag : String)
    (metaResolve : Except String (String × Image)) (outDir : String)
    (buildOutcome : Except String String) : Except (String × Converter) Converter :=
  match internalFromClassical c dockerTag metaResolve with
  | .error e => .error (e, c)
  | .ok _res =>
      solveAndLoadOld c dockerTag dockerTag outDir buildOutcome
        [RunOpt.customName (c.vertexPfx ++ "DOCKER LOAD (PULL " ++ dockerTag ++ ")")]

/-! ## The converter operation alphabet and the save-local invariant -/

/-- One converter operation, with the collaborator outcomes it needs
carried as fields. `WithDockerRun` lives entirely outside the core source
and is not represented. -/
inductive ConvOp where
  | fromOp (imageName : String) (buildArgs : List String) (dep : MultiTargetStates)
      (metaResolve : Except String (String × Image))
  | fromDockerfileOp (contextPath dfPath dfTarget : String) (buildArgs : List String)
      (dep : MultiTargetStates) (solveOut : Except String String)
      (resolveData : Except String ResolveData) (dfRead : Except String Unit)
      (df2llbResult : Except String (LLBState × Image))
  | copyArtifactOp (artifactName dest : String) (buildArgs : List String) (isDir : Bool)
      (chown : String) (dep : MultiTargetStates)
  | copyClassicalOp (srcs : List String) (dest : String) (isDir : Bool) (chown : String)
  | runOp (args : List String) (mountRunOpts : List RunOpt)
      (secretKeyValues : List String)
      (privileged withEntrypoint withDocker isWithShell pushFlag withSSH : Bool)
  | saveArtifactOp (saveFrom saveTo saveAsLocalTo absSaveFrom : String)
  | saveImageOp (imageNames : List String) (pushImages : Bool)
  | buildOp (fullTargetName : String) (buildArgs : List String) (dep : MultiTargetStates)
  | workdirOp (p : String)
  | userOp (u : String)
  | cmdOp (args : List String) (isWithShell : Bool)
  | entrypointOp (args : List String) (isWithShell : Bool)
  | exposeOp (ports : List String)
  | volumeOp (volumes : List String)
  | envOp (k v : String)
  | argOp (k v : String)
  | labelOp (labels : List (String × String))
  | healthcheckOp (isNone : Bool) (cmdArgs : List String)
      (interval timeoutDur startPeriod : Int) (retries : Int)
  | gitCloneOp (url branch dest : String)
  | dockerLoadOldOp (targetName dockerTag : String) (buildArgs : List String)
      (dep : MultiTargetStates) (outDir : String) (buildOutcome : Except String String)
  | dockerPullOldOp (dockerTag : String) (metaResolve : Except String (String × Image))
      (outDir : String) (buildOutcome : Except String String)
  | finalizeOp

/-- Apply one operation to the converter. -/
def applyOp (c : Converter) : ConvOp → Except (String × Converter) Converter
  | .fromOp n a dep mr => FromCmd c n a dep mr
  | .fromDockerfileOp cp dfp dft a dep so rd dfr d2l =>
      FromDockerfile c cp dfp dft a dep so rd dfr d2l
  | .copyArtifactOp an d a dir ch dep => CopyArtifact c an d a dir ch dep
  | .copyClassicalOp srcs d dir ch => .ok (CopyClassical c srcs d dir ch)
  | .runOp args m s p we wd ws pf ssh => Run c args m s p we wd ws pf ssh
  | .saveArtifactOp f t l abs => .ok (SaveArtifact c f t l abs)
  | .saveImageOp ns p => .ok (SaveImage c ns p)
  | .buildOp n a dep =>
      match Build c n a dep with
      | .error e => .error e
      | .ok r => .ok r.2
  | .workdirOp p => .ok (Workdir c p)
  | .userOp u => .ok (User c u)
  | .cmdOp a w => .ok (Cmd c a w)
  | .entrypointOp a w => .ok (Entrypoint c a w)
  | .exposeOp ps => .ok (Expose c ps)
  | .volumeOp vs => .ok (Volume c vs)
  | .envOp k v => .ok (Env c k v)
  | .argOp k v => .ok (Arg c k v)
  | .labelOp ls => .ok (Label c ls)
  | .healthcheckOp n a i t s r => .ok (Healthcheck c n a i t s r)
  | .gitCloneOp u b d => .ok (GitClone c u b d)
  | .dockerLoadOldOp n t a dep o bo => DockerLoadOld c n t a dep o bo
  | .dockerPullOldOp t mr o bo => DockerPullOld c t mr o bo
  | .finalizeOp => .ok (FinalizeStates c)

/-- Apply a sequence of operations. -/
def applyOps (c : Converter) : List ConvOp → Except (String × Converter) Converter
  | [] => .ok c
  | op :: rest =>
      match applyOp c op with
      | .error e => .error e
      | .ok c' => applyOps c' rest

/-- The save-local bounds invariant: every `SaveLocal` index is in bounds of
`SeparateArtifactsState`. -/
def saveLocalsInv (c : Converter) : Prop :=
  ∀ sl ∈ c.mtsFinal.saveLocals, sl.index < c.mtsFinal.separateArtifactsState.length

/-- `Build` leaves the two save-local vectors untouched. -/
theorem Build_vectors {c : Converter} {n : String} {a : List String}
    {d : MultiTargetStates} {r : MultiTargetStates × Converter}
    (h : Build c n a d = .ok r) :
    r.2.mtsFinal.saveLocals = c.mtsFinal.saveLocals ∧
    r.2.mtsFinal.separateArtifactsState = c.mtsFinal.separateArtifactsState := by
  unfold Build at h
  cases hp : parseTarget n with
  | error e => simp [hp] at h
  | ok rt =>
      simp only [hp] at h
      cases hb : buildNewVarCollection c rt a with
      | error e => simp [hb] at h
      | ok res =>
          simp only [hb] at h
          cases h
          unfold buildNewVarCollection at hb
          have hf := withParseBuildArgs_converter_frame hb
          exact ⟨hf.2.2.2.2.2.1, hf.2.2.2.2.2.2⟩

/-- `fromTarget` leaves the two save-local vectors untouched. -/
theorem fromTarget_vectors {c : Converter} {n : String} {a : List String}
    {d : MultiTargetStates} {c' : Converter} (h : fromTarget c n a d = .ok c') :
    c'.mtsFinal.saveLocals = c.mtsFinal.saveLocals ∧
    c'.mtsFinal.separateArtifactsState = c.mtsFinal.separateArtifactsState := by
  unfold fromTarget at h
  cases hp : parseTarget n with
  | error e => simp [hp] at h
  | ok t0 =>
      simp only [hp] at h
      cases hb : Build c t0.toString a d with
      | error e => simp [hb] at h
      | ok bres =>
          simp only [hb] at h
          have hv := Build_vectors hb
          cases hsi : bres.1.finalStates.lastSaveImage with
          | none => simp [hsi] at h
          | some si =>
              simp only [hsi] at h
              cases h
              exact hv

/-- `CopyArtifact` leaves the two save-local vectors untouched. -/
theorem copyArtifact_vectors {c : Converter} {an d : String} {a : List String}
    {dir : Bool} {ch : String} {dep : MultiTargetStates} {c' : Converter}
    (h : CopyArtifact c an d a dir ch dep = .ok c') :
    c'.mtsFinal.saveLocals = c.mtsFinal.saveLocals ∧
    c'.mtsFinal.separateArtifactsState = c.mtsFinal.separateArtifactsState := by
  unfold CopyArtifact at h
  cases hp : parseArtifact an with
  | error e => simp [hp] at h
  | ok a0 =>
      simp only [hp] at h
      cases hb : Build c a0.target.toString a dep with
      | error e => simp [hb] at h
      | ok bres =>
          simp only [hb] at h
          have hv := Build_vectors hb
          cases h
          exact hv

/-- `fromClassical` leaves the two save-local vectors untouched. -/
theorem fromClassical_vectors {c : Converter} {n : String}
    {mr : Except String (String × Image)} {c' : Converter}
    (h : fromClassical c n mr = .ok c') :
    c'.mtsFinal.saveLocals = c.mtsFinal.saveLocals ∧
    c'.mtsFinal.separateArtifactsState = c.mtsFinal.separateArtifactsState := by
  unfold fromClassical at h
  cases hi : internalFromClassical c n mr with
  | error e => simp [hi] at h
  | ok res =>
      simp only [hi] at h
      cases h
      exact ⟨rfl, rfl⟩

/-- `FromCmd` leaves the two save-local vectors untouched. -/
theorem fromCmd_vectors {c : Converter} {n : String} {a : List String}
    {dep : MultiTargetStates} {mr : Except String (String × Image)} {c' : Converter}
    (h : FromCmd c n a dep mr = .ok c') :
    c'.mtsFinal.saveLocals = c.mtsFinal.saveLocals ∧
    c'.mtsFinal.separateArtifactsState = c.mtsFinal.separateArtifactsState := by
  unfold FromCmd at h
  by_cases hp : strContainsChar n '+' = true
  · rw [if_pos hp] at h
    exact fromTarget_vectors h
  · rw [if_neg hp] at h
    by_cases hl : (a.length != 0) = true
    · rw [if_pos hl] at h
      cases h
    · rw [if_neg hl] at h
      exact fromClassical_vectors h

/-- `solveAndLoadOld` leaves the two save-local vectors untouched. -/
theorem solveAndLoadOld_vectors {c : Converter} {opName dockerTag outDir : String}
    {bo : Except String String} {opts : List RunOpt} {c' : Converter}
    (h : solveAndLoadOld c opName dockerTag outDir bo opts = .ok c') :
    c'.mtsFinal.saveLocals = c.mtsFinal.saveLocals ∧
    c'.mtsFinal.separateArtifactsState = c.mtsFinal.separateArtifactsState := by
  unfold solveAndLoadOld at h
  cases bo with
  | error e => cases h
  | ok id =>
      cases h
      exact ⟨rfl, rfl⟩

/-- `DockerLoadOld` leaves the two save-local vectors untouched. -/
theorem dockerLoadOld_vectors {c : Converter} {n t : String} {a : List String}
    {dep : MultiTargetStates} {o : String} {bo : Except String String} {c' : Converter}
    (h : DockerLoadOld c n t a dep o bo = .ok c') :
    c'.mtsFinal.saveLocals = c.mtsFinal.saveLocals ∧
    c'.mtsFinal.separateArtifactsState = c.mtsFinal.separateArtifactsState := by
  unfold DockerLoadOld at h
  cases hp : parseTarget n with
  | error e => simp [hp] at h
  | ok dt =>
      simp only [hp] at h
      cases hb : Build c dt.toString a dep with
      | error e => simp [hb] at h
      | ok bres =>
          simp only [hb] at h
          have hv := Build_vectors hb
          have hs := solveAndLoadOld_vectors h
          exact ⟨hs.1.trans hv.1, hs.2.trans hv.2⟩

/-- `DockerPullOld` leaves the two save-local vectors untouched. -/
theorem dockerPullOld_vectors {c : Converter} {t : String}
    {mr : Except String (String × Image)} {o : String} {bo : Except String String}
    {c' : Converter} (h : DockerPullOld c t mr o bo = .ok c') :
    c'.mtsFinal.saveLocals = c.mtsFinal.saveLocals ∧
    c'.mtsFinal.separateArtifactsState = c.mtsFinal.separateArtifactsState := by
  unfold DockerPullOld at h
  cases hi : internalFromClassical c t mr with
  | error e => simp [hi] at h
  | ok res =>
      simp only [hi] at h
      exact solveAndLoadOld_vectors h

/-- `fromDockerfileContext` leaves the two save-local vectors untouched. -/
theorem fromDockerfileContext_vectors {c : Converter} {cp : String}
    {a : List String} {dep : MultiTargetStates} {so : Except String String}
    {rd : Except String ResolveData} {r : LLBState × Converter}
    (h : fromDockerfileContext c cp a dep so rd = .ok r) :
    r.2.mtsFinal.saveLocals = c.mtsFinal.saveLocals ∧
    r.2.mtsFinal.separateArtifactsState = c.mtsFinal.separateArtifactsState := by
  unfold fromDockerfileContext at h
  by_cases hp : strContainsChar cp '+' = true
  · rw [if_pos hp] at h
    cases hpa : parseArtifact cp with
    | error e => simp [hpa] at h
    | ok ca =>
        simp only [hpa] at h
        cases hb : Build c ca.target.toString a dep with
        | error e => simp [hb] at h
        | ok bres =>
            simp only [hb] at h
            have hv := Build_vectors hb
            cases so with
            | error e => cases h
            | ok pa =>
                cases h
                exact hv
  · rw [if_neg hp] at h
    cases rd with
    | error e => cases h
    | ok data =>
        cases h
        exact ⟨rfl, rfl⟩

/-- `FromDockerfile` leaves the two save-local vectors untouched. -/
theorem fromDockerfile_vectors {c : Converter} {cp dfp dft : String}
    {a : List String} {dep : MultiTargetStates} {so : Except String String}
    {rd : Except String ResolveData} {dr : Except String Unit}
    {d2l : Except String (LLBState × Image)} {c' : Converter}
    (h : FromDockerfile c cp dfp dft a dep so rd dr d2l = .ok c') :
    c'.mtsFinal.saveLocals = c.mtsFinal.saveLocals ∧
    c'.mtsFinal.separateArtifactsState = c.mtsFinal.separateArtifactsState := by
  unfold FromDockerfile at h
  by_cases hdfp : (dfp != "") = true
  · rw [if_pos hdfp] at h
    cases h
  · rw [if_neg hdfp] at h
    cases hc : fromDockerfileContext c cp a dep so rd with
    | error e => simp [hc] at h
    | ok bc =>
        simp only [hc] at h
        have h1 := fromDockerfileContext_vectors hc
        cases dr with
        | error e => cases h
        | ok u =>
            cases hw : withParseBuildArgsGo bc.2.varCollection bc.2 a with
            | error e => simp [hw] at h
            | ok pres =>
                simp only [hw] at h
                have h2 := withParseBuildArgs_converter_frame hw
                cases d2l with
                | error e => cases h
                | ok sti =>
                    cases h
                    exact ⟨(h2.2.2.2.2.2.1).trans h1.1, (h2.2.2.2.2.2.2).trans h1.2⟩

/-- `SaveArtifact` with non-empty `asLocalTo` appends exactly one
scratch-rooted state and one `SaveLocal` pointing at the appended
position. -/
theorem saveArtifact_append {c : Converter} {f t l abs : String} (hl : l ≠ "") :
    ∃ sep ap,
      (SaveArtifact c f t l abs).mtsFinal.separateArtifactsState =
        c.mtsFinal.separateArtifactsState ++ [sep] ∧
      (SaveArtifact c f t l abs).mtsFinal.saveLocals =
        c.mtsFinal.saveLocals ++
          [⟨l, ap, (SaveArtifact c f t l abs).mtsFinal.separateArtifactsState.length - 1⟩] ∧
      (SaveArtifact c f t l abs).mtsFinal.separateArtifactsState.length =
        c.mtsFinal.separateArtifactsState.length + 1 ∧
      (∃ destPath label, sep = LLBState.copySt c.mtsFinal.sideEffectsState [f]
        (LLBState.scratch targetPlatform) destPath true false "" label) := by
  unfold SaveArtifact
  have hl2 : (l != "") = true := by simpa using hl
  rw [if_pos hl2]
  refine ⟨_, _, rfl, rfl, ?_, ⟨_, _, rfl⟩⟩
  simp

/-- `SaveArtifact` with empty `asLocalTo` touches neither vector. -/
theorem saveArtifact_empty {c : Converter} {f t abs : String} :
    (SaveArtifact c f t "" abs).mtsFinal.separateArtifactsState =
      c.mtsFinal.separateArtifactsState ∧
    (SaveArtifact c f t "" abs).mtsFinal.saveLocals = c.mtsFinal.saveLocals :=
  ⟨rfl, rfl⟩

/-- `SaveArtifact` preserves the save-local bounds invariant. -/
theorem saveArtifact_inv {c : Converter} (hinv : saveLocalsInv c) (f t l abs : String) :
    saveLocalsInv (SaveArtifact c f t l abs) := by
  by_cases hl : l = ""
  · subst hl
    intro sl hsl
    rw [saveArtifact_empty.2] at hsl
    rw [saveArtifact_empty.1]
    exact hinv sl hsl
  · obtain ⟨sep, ap, h1, h2, h3, -⟩ := @saveArtifact_append c f t l abs hl
    intro sl hsl
    rw [h2] at hsl
    rcases List.mem_append.mp hsl with hm | hm
    · have := hinv sl hm
      omega
    · rcases List.mem_singleton.mp hm with rfl
      simp only [SaveLocal.index]
      omega

/-- `Run` leaves the two save-local vectors untouched. -/
theorem Run_vectors {c c' : Converter} {args : List String} {m : List RunOpt}
    {s : List String} {p we wd ws pf ssh : Bool}
    (h : Run c args m s p we wd ws pf ssh = .ok c') :
    c'.mtsFinal.saveLocals = c.mtsFinal.saveLocals ∧
    c'.mtsFinal.separateArtifactsState = c.mtsFinal.separateArtifactsState := by
  unfold Run at h
  have hf := internalRun_frame h
  exact ⟨hf.2.2.2.2.1, hf.2.2.2.2.2⟩

/-- Every operation other than `SaveArtifact` leaves `SaveLocals` and
`SeparateArtifactsState` untouched. -/
theorem applyOp_vectors {c c' : Converter} {op : ConvOp} (h : applyOp c op = .ok c')
    (hns : ∀ f t l a, op ≠ ConvOp.saveArtifactOp f t l a) :
    c'.mtsFinal.saveLocals = c.mtsFinal.saveLocals ∧
    c'.mtsFinal.separateArtifactsState = c.mtsFinal.separateArtifactsState := by
  cases op with
  | fromOp n a dep mr => exact fromCmd_vectors h
  | fromDockerfileOp cp dfp dft a dep so rd dfr d2l =>
      exact @fromDockerfile_vectors c cp dfp dft a dep so rd dfr d2l c' h
  | copyArtifactOp an d a dir ch dep => exact copyArtifact_vectors h
  | copyClassicalOp srcs d dir ch => cases h; exact ⟨rfl, rfl⟩
  | runOp args m s p we wd ws pf ssh => exact Run_vectors h
  | saveArtifactOp f t l a => exact absurd rfl (hns f t l a)
  | saveImageOp ns p => cases h; exact ⟨rfl, rfl⟩
  | buildOp n a dep =>
      simp only [applyOp] at h
      cases hb : Build c n a dep with
      | error e => rw [hb] at h; cases h
      | ok r =>
          rw [hb] at h
          cases h
          exact Build_vectors hb
  | workdirOp p => cases h; exact ⟨rfl, rfl⟩
  | userOp u => cases h; exact ⟨rfl, rfl⟩
  | cmdOp a w => cases h; exact ⟨rfl, rfl⟩
  | entrypointOp a w => cases h; exact ⟨rfl, rfl⟩
  | exposeOp ps => cases h; exact ⟨rfl, rfl⟩
  | volumeOp vs => cases h; exact ⟨rfl, rfl⟩
  | envOp k v => cases h; exact ⟨rfl, rfl⟩
  | argOp k v => cases h; exact ⟨rfl, rfl⟩
  | labelOp ls => cases h; exact ⟨rfl, rfl⟩
  | healthcheckOp n a i t s r => cases h; exact ⟨rfl, rfl⟩
  | gitCloneOp u b d => cases h; exact ⟨rfl, rfl⟩
  | dockerLoadOldOp n t a dep o bo => exact dockerLoadOld_vectors h
  | dockerPullOldOp t mr o bo => exact dockerPullOld_vectors h
  | finalizeOp => cases h; exact ⟨rfl, rfl⟩

/-- C8: for every state reachable by any sequence of converter operations
from a state satisfying the bounds invariant, every `SaveLocal` entry's
index is within `SeparateArtifactsState`; `SaveArtifact` with non-empty
`asLocalTo` appends exactly one scratch-rooted state and one `SaveLocal`
whose index is that state's array position; with empty `asLocalTo`, and for
every other operation, neither vector is touched. -/
theorem save_local_bounds :
    (∀ (ops : List ConvOp) (c c' : Converter), saveLocalsInv c →
      applyOps c ops = .ok c' → saveLocalsInv c') ∧
    (∀ (c : Converter) (f t l abs : String), l ≠ "" →
      ∃ sep ap,
        (SaveArtifact c f t l abs).mtsFinal.separateArtifactsState =
          c.mtsFinal.separateArtifactsState ++ [sep] ∧
        (SaveArtifact c f t l abs).mtsFinal.saveLocals =
          c.mtsFinal.saveLocals ++
            [⟨l, ap,
              (SaveArtifact c f t l abs).mtsFinal.separateArtifactsState.length - 1⟩] ∧
        (SaveArtifact c f t l abs).mtsFinal.separateArtifactsState.length =
          c.mtsFinal.separateArtifactsState.length + 1 ∧
        (∃ destPath label, sep = LLBState.copySt c.mtsFinal.sideEffectsState [f]
          (LLBState.scratch targetPlatform) destPath true false "" label)) ∧
    (∀ (c : Converter) (f t abs : String),
      (SaveArtifact c f t "" abs).mtsFinal.separateArtifactsState =
        c.mtsFinal.separateArtifactsState ∧
      (SaveArtifact c f t "" abs).mtsFinal.saveLocals = c.mtsFinal.saveLocals) ∧
    (∀ (c c' : Converter) (op : ConvOp),
      (∀ f t l a, op ≠ ConvOp.saveArtifactOp f t l a) →
      applyOp c op = .ok c' →
      c'.mtsFinal.saveLocals = c.mtsFinal.saveLocals ∧
      c'.mtsFinal.separateArtifactsState = c.mtsFinal.separateArtifactsState) := by
  refine ⟨?_, fun c f t l abs hl => saveArtifact_append hl,
    fun c f t abs => saveArtifact_empty, fun c c' op hns h => applyOp_vectors h hns⟩
  intro ops
  induction ops with
  | nil =>
      intro c c' hinv h
      cases h
      exact hinv
  | cons op rest ih =>
      intro c c' hinv h
      simp only [applyOps] at h
      cases ha : applyOp c op with
      | error e => rw [ha] at h; cases h
      | ok c1 =>
          simp only [ha] at h
          by_cases hsa : ∃ f t l a, op = ConvOp.saveArtifactOp f t l a
          · obtain ⟨f, t, l, a, rfl⟩ := hsa
            have hc1 : c1 = SaveArtifact c f t l a := by
              cases ha
              rfl
            subst hc1
            exact ih _ _ (saveArtifact_inv hinv f t l a) h
          · push_neg at hsa
            obtain ⟨h1, h2⟩ := applyOp_vectors ha (fun f t l a => hsa f t l a)
            have hinv1 : saveLocalsInv c1 := by
              intro sl hsl
              rw [h1] at hsl
              rw [h2]
              exact hinv sl hsl
            exact ih _ _ hinv1 h

/-- Witness for `save_local_bounds`: a concrete sequence with a local save
and an image save keeps every `SaveLocal` index in bounds. -/
theorem save_local_bounds_witness :
    ∃ c', applyOps cexConverter
        [ConvOp.saveArtifactOp "/out/x" "x" "/local/x" "/out/x",
         ConvOp.saveImageOp [] false] = .ok c' ∧ saveLocalsInv c' := by
  refine ⟨_, rfl, ?_⟩
  exact save_local_bounds.1
    [ConvOp.saveArtifactOp "/out/x" "x" "/local/x" "/out/x", ConvOp.saveImageOp [] false]
    cexConverter _ (by intro sl hsl; simp [cexConverter] at hsl) rfl

end Earthly
